/-
  Verification of the reconstruction core of the pdf-translator block matcher.

  The development shallowly embeds the relevant Python functions of
  `block_matcher/core/extract.py`, `block_matcher/core/pdf_builder.py` and
  `block_matcher/core/data_manager.py` as executable Lean definitions and
  proves/refutes the specified properties about them.

  Modelling conventions:
  * floats are modelled as rationals (ℚ); packed colors as integers;
  * `pdfmetrics.stringWidth(text, font, size)` (an external reportlab call,
    linear in `size` and additive over characters) is modelled by an abstract
    per-character width table `cw : String → Char → ℚ` ("width of a character
    of the font at size 1"), passed as a parameter to every definition that
    measures text;
  * Python dictionaries are modelled as association lists (first binding
    wins on lookup, insertion appends), `.get` defaults are reproduced at
    the use sites;
  * Python's `\s` is modelled for the ASCII range.
-/
import Mathlib
set_option maxRecDepth 10000

namespace PdfTrans

/-! ## Small Python string helpers -/

/-- ASCII whitespace as matched by Python's `\s`, `str.strip()` and
`str.split()` (space, tab, newline, carriage return, vertical tab, form feed). -/
def isPySpace (c : Char) : Bool :=
  c = ' ' || c = '\t' || c = '\n' || c = '\r' || c = '\x0b' || c = '\x0c'

/-- `str.strip()`. -/
def pyStrip (s : String) : String :=
  .mk ((s.toList.dropWhile isPySpace).reverse.dropWhile isPySpace).reverse

/-- A Python string is truthy iff nonempty; `s.strip()` used as a condition. -/
def stripTruthy (s : String) : Bool := !(pyStrip s).isEmpty

/-- Core of `re.findall(r'\s+|\S+', s)`: cut a character list into maximal
runs of whitespace / non-whitespace characters. -/
def tokenizeGo : List Char → List (List Char)
  | [] => []
  | c :: cs =>
    (c :: cs.takeWhile (fun d => isPySpace d == isPySpace c)) ::
      tokenizeGo (cs.dropWhile (fun d => isPySpace d == isPySpace c))
termination_by l => l.length
decreasing_by
  simp only [List.length_cons]
  exact Nat.lt_succ_of_le ((List.dropWhile_sublist _).length_le)

/-- `re.findall(r'\s+|\S+', s)` — tokenization preserving whitespace runs. -/
def tokenize (s : String) : List String :=
  (tokenizeGo s.toList).map .mk

/-- `str.split()` (no argument): maximal non-whitespace runs. -/
def pySplit (s : String) : List String :=
  ((tokenizeGo s.toList).filter (fun t => !(t.headD ' ' |> isPySpace))).map .mk

/-- `' '.join(ws)`. -/
def joinSpace (ws : List String) : String := String.intercalate " " ws

/-- `re.sub(r' +', ' ', s)`: collapse runs of space characters (only `' '`). -/
def collapseSpacesGo : List Char → List Char
  | [] => []
  | c :: cs =>
    if c = ' ' then ' ' :: collapseSpacesGo (cs.dropWhile (· = ' '))
    else c :: collapseSpacesGo cs
termination_by l => l.length
decreasing_by
  · simp only [List.length_cons]
    exact Nat.lt_succ_of_le ((List.dropWhile_sublist _).length_le)
  · simp

/-- `re.sub(r' +', ' ', s)`. -/
def collapseSpaces (s : String) : String := .mk (collapseSpacesGo s.toList)

/-- The non-whitespace characters of a string, in order ("the text modulo
whitespace normalization"). -/
def nonWsChars (s : String) : List Char := s.toList.filter (fun c => !isPySpace c)

/-- Python `str.lower()` (ASCII range). -/
def pyLower (s : String) : String := .mk (s.toList.map Char.toLower)

/-- Python `a in b` on strings: substring test. -/
def isSubstring (a b : String) : Bool := decide (a.toList <:+: b.toList)

/-! ## Data model -/

/-- A typographic style triple, the `{police, taille, couleur}` dicts of the
source (font name, font size, packed RGB color). -/
structure Style where
  police : String
  taille : ℚ
  couleur : ℤ
deriving DecidableEq, Repr

/-- The signature triples used as dictionary keys in the source. -/
abbrev Sig := String × ℚ × ℤ

def Style.sig (s : Style) : Sig := (s.police, s.taille, s.couleur)

/-- `<svg id=.../>` properties from the svg mapping file
(`file`, `taille_texte_reference`, `ratio_largeur_hauteur`,
`ajustement_vertical`). -/
structure SvgProps where
  file : String
  tailleRef : ℚ
  ratio : ℚ
  vAdjust : ℚ
deriving DecidableEq, Repr

/-- A parsed content segment (`{'type': 'text'|'svg', ...}`). -/
inductive Segment where
  | text (text : String) (style : Style)
  | svg (id : String) (props : SvgProps) (style : Style)
deriving DecidableEq, Repr

/-- A style value that is either a direct `{police,taille,couleur}` dict or a
named reference `"gsN"` into the global style table. -/
inductive StyleRef where
  | direct (style : Style)
  | named (id : String)
deriving DecidableEq, Repr

/-- Block data consumed by the reflow/compression engine.  Optional fields
model dictionary keys that may be absent; the `.get` defaults of the source
are reproduced at each use site. -/
structure Block where
  id : String
  maxAllowableWidth : ℚ                  -- 'max_allowable_width'
  isList : Bool := false                 -- 'is_list'
  listIndent : ℚ := 0                    -- 'list_indent'
  listHang : Bool := true                -- 'list_hang'
  lignesOriginales : Option ℕ := none    -- 'lignes_originales'
  defaultStyle : Option Style := none    -- 'default_style'
  defaultStyleRef : Option StyleRef := none -- 'default_style_ref'
  interligneNormal : Option ℚ := none    -- 'interligne_normal'
  blockType : String := "paragraph"      -- 'block_type'
deriving DecidableEq, Repr

/-- Character-width model for `pdfmetrics.stringWidth`: width of one
character of a font at font size 1.  `stringWidth(t, font, size)` is linear
in the size and additive over characters. -/
abbrev CharWidths := String → Char → ℚ

/-- `pdfmetrics.stringWidth(text, font, size)`. -/
def stringWidth (cw : CharWidths) (text : String) (font : String) (size : ℚ) : ℚ :=
  size * (text.toList.map (cw font)).sum

/-! ## `calculate_reflow` (pdf_builder.py) -/

/-- An element placed on a computed line. -/
inductive LineItem where
  | text (text : String) (width : ℚ) (style : Style) (fontScale : ℚ) (charSpace : ℚ)
  | svg (id : String) (props : SvgProps) (width : ℚ) (height : ℚ) (fontScale : ℚ)
deriving DecidableEq, Repr

/-- The mutable state of the `calculate_reflow` loop. -/
structure RState where
  lines : List (List LineItem)
  currentLine : List LineItem
  currentWidth : ℚ
  lineIndex : ℕ
deriving Repr

/-- `get_effective_maxwidth(line_idx)` inside `calculate_reflow`. -/
def effectiveMaxwidth (bd : Block) (lineIdx : ℕ) : ℚ :=
  if !bd.isList then bd.maxAllowableWidth
  else if lineIdx = 0 then max 0 (bd.maxAllowableWidth - bd.listIndent)
  else if bd.listHang then max 0 (bd.maxAllowableWidth - bd.listIndent)
  else bd.maxAllowableWidth

/-- Push the current line (if non-empty) and start a new one;
the `if i > 0:` branch of the internal-newline handling. -/
def rstatePushNewline (st : RState) : RState :=
  { lines := if st.currentLine.isEmpty then st.lines else st.lines ++ [st.currentLine]
    currentLine := []
    currentWidth := 0
    lineIndex := st.lineIndex + 1 }

/-- The font actually measured: `style.get("police", "Helvetica") or "Helvetica"`. -/
def tokenFont (style : Style) : String :=
  if style.police = "" then "Helvetica" else style.police

/-- Width of one token: `stringWidth` at the scaled size plus per-character
extra spacing for non-whitespace tokens. -/
def tokenWidth (cw : CharWidths) (style : Style) (fontScale charSpace : ℚ)
    (token : String) : ℚ :=
  stringWidth cw token (tokenFont style) (style.taille * fontScale) +
    (if stripTruthy token then (token.length : ℚ) * charSpace else 0)

/-- Process one token of a text segment (the `for token in tokens:` body). -/
def procToken (cw : CharWidths) (bd : Block) (fontScale charSpace : ℚ)
    (style : Style) (st : RState) (token : String) : RState :=
  let w := tokenWidth cw style fontScale charSpace token
  let st :=
    if stripTruthy token ∧ st.currentWidth + w > effectiveMaxwidth bd st.lineIndex ∧
        ¬st.currentLine.isEmpty then
      { lines := st.lines ++ [st.currentLine], currentLine := [], currentWidth := 0,
        lineIndex := st.lineIndex + 1 }
    else st
  { st with
    currentLine := st.currentLine ++ [.text token w style fontScale charSpace]
    currentWidth := st.currentWidth + w }

/-- Process one `\n`-separated part of a text segment
(the `for i, part in enumerate(parts):` body). -/
def procPart (cw : CharWidths) (bd : Block) (fontScale charSpace : ℚ)
    (style : Style) (st : RState) (i : ℕ) (part : String) : RState :=
  let st := if i > 0 then rstatePushNewline st else st
  if part = "" then st
  else (tokenize part).foldl (procToken cw bd fontScale charSpace style) st

/-- Fold a function indexed by position over a list (Python `enumerate`). -/
def foldlIdx {α β : Type} (f : β → ℕ → α → β) (init : β) (l : List α) : β :=
  (l.foldl (fun (p : β × ℕ) a => (f p.1 p.2 a, p.2 + 1)) (init, 0)).1

/-- Process one segment (the `for segment in segments:` body). -/
def procSegment (cw : CharWidths) (bd : Block) (fontScale charSpace : ℚ)
    (st : RState) (seg : Segment) : RState :=
  match seg with
  | .text text style =>
      foldlIdx (procPart cw bd fontScale charSpace style) st (text.splitOn "\n")
  | .svg id props _style =>
      let h := props.tailleRef * fontScale
      let w := h * props.ratio
      let st :=
        if st.currentWidth + w > effectiveMaxwidth bd st.lineIndex ∧
            ¬st.currentLine.isEmpty then
          { lines := st.lines ++ [st.currentLine], currentLine := [], currentWidth := 0,
            lineIndex := st.lineIndex + 1 }
        else st
      { st with
        currentLine := st.currentLine ++ [.svg id props w h fontScale]
        currentWidth := st.currentWidth + w }

/-- `calculate_reflow(segments, blockdata, svgmappingdata, font_scale, char_space)`:
greedy line wrapping of the segments inside the block's box. -/
def calculate_reflow (cw : CharWidths) (segments : List Segment) (bd : Block)
    (fontScale : ℚ := 1) (charSpace : ℚ := 0) : List (List LineItem) :=
  let st := segments.foldl (procSegment cw bd fontScale charSpace)
    ⟨[], [], 0, 0⟩
  if st.currentLine.isEmpty then st.lines else st.lines ++ [st.currentLine]

/-! ## Line-spacing estimates and `compress_block_lines` (pdf_builder.py) -/

/-- `estimate_original_line_spacing(block)`. -/
def estimate_original_line_spacing (block : Block) : ℚ :=
  let baseFontSize := (block.defaultStyle.map (·.taille)).getD (21/2)
  let interligneNormal := block.interligneNormal.getD (6/5)
  baseFontSize * interligneNormal

/-- `estimate_box_height_from_original(block)`; `.get('lignes_originales', 1) or 1`
turns both a missing key and a zero value into 1. -/
def estimate_box_height_from_original (block : Block) : ℚ :=
  let lignesOriginales : ℕ :=
    match block.lignesOriginales with
    | none => 1
    | some 0 => 1
    | some n => n
  (lignesOriginales : ℚ) * estimate_original_line_spacing block

/-- `estimate_line_spacing_for_scale(block, font_scale)`. -/
def estimate_line_spacing_for_scale (block : Block) (fontScale : ℚ) : ℚ :=
  let baseFontSize := (block.defaultStyle.map (·.taille)).getD (21/2)
  let interligneNormal := block.interligneNormal.getD (6/5)
  (baseFontSize * fontScale) * interligneNormal

/-- `font_scale_candidates` of `compress_block_lines`. -/
def fontScaleCandidates : List ℚ := [1, 19/20, 9/10, 17/20, 4/5, 3/4, 7/10, 13/20]

/-- `char_space_candidates` of `compress_block_lines`. -/
def charSpaceCandidates : List ℚ := [0, -1/20, -1/10, -3/20, -1/5]

/-- Result quadruple of `compress_block_lines`:
`(lines, best_fs, best_cs, best_mode)`. -/
structure CompressResult where
  lines : List (List LineItem)
  fs : ℚ
  cs : ℚ
  mode : String
deriving DecidableEq, Repr

/-- Inner `for cs in char_space_candidates:` loop of `compress_block_lines`. -/
def compressTryCs (cw : CharWidths) (segments : List Segment) (block : Block)
    (maxL : ℕ) (boxHeight : ℚ) (fs : ℚ) : List ℚ → Option CompressResult
  | [] => none
  | cs :: rest =>
    let linesTest := calculate_reflow cw segments block fs cs
    let nLines := linesTest.length
    if nLines ≤ maxL then some ⟨linesTest, fs, cs, "original_spacing"⟩
    else
      let lineSpacingScaled := estimate_line_spacing_for_scale block fs
      if lineSpacingScaled ≤ 0 then
        compressTryCs cw segments block maxL boxHeight fs rest
      else
        let maxLinesFs : ℤ := ⌊boxHeight / lineSpacingScaled⌋
        if (nLines : ℤ) ≤ maxLinesFs then some ⟨linesTest, fs, cs, "scaled_spacing"⟩
        else compressTryCs cw segments block maxL boxHeight fs rest

/-- Outer `for fs in font_scale_candidates:` loop of `compress_block_lines`. -/
def compressTryFs (cw : CharWidths) (segments : List Segment) (block : Block)
    (maxL : ℕ) (boxHeight : ℚ) : List ℚ → Option CompressResult
  | [] => none
  | fs :: rest =>
    match compressTryCs cw segments block maxL boxHeight fs charSpaceCandidates with
    | some r => some r
    | none => compressTryFs cw segments block maxL boxHeight rest

/-- The effective `max_lines_original` of `compress_block_lines`: the
argument, else the block's `lignes_originales`, else 9999. -/
def compressMaxL (block : Block) (maxLinesOriginal : Option ℕ) : ℕ :=
  match maxLinesOriginal with
  | some n => n
  | none => block.lignesOriginales.getD 9999

/-- `compress_block_lines(segments, block_for_reflow, svg_mapping_data,
max_lines_original)`: the compression-ladder search. -/
def compress_block_lines (cw : CharWidths) (segments : List Segment) (block : Block)
    (maxLinesOriginal : Option ℕ) : CompressResult :=
  let maxL : ℕ := compressMaxL block maxLinesOriginal
  let boxHeight := estimate_box_height_from_original block
  let lines0 := calculate_reflow cw segments block 1 0
  if lines0.length ≤ maxL then ⟨lines0, 1, 0, "original_spacing"⟩
  else
    match compressTryFs cw segments block maxL boxHeight fontScaleCandidates with
    | some r => r
    | none => ⟨calculate_reflow cw segments block 1 0, 1, 0, "original_spacing"⟩

/-! ## `parse_tagged_text` (pdf_builder.py)

The scanner `re.finditer(r'<(gs\d+)>(.*?)</\1>|<svg id="([^"]*)"\s*/>|([^<]+)',
text, re.DOTALL)` is embedded as a recursive scan: at each position the three
alternatives are tried in order; a position where none matches is skipped
(this is how `finditer` drops a stray `<`). -/

/-- Lookup in a dict modelled as an association list (first binding wins). -/
def lookupAssoc {α : Type} (m : List (String × α)) (k : String) : Option α :=
  (m.find? (fun p => p.1 == k)).map (·.2)

/-- Find the non-greedy close for `(.*?)</gsN>`: split `l` at the first
occurrence of `close`, returning the content before it and the remainder
after it. -/
def findClose (close : List Char) : List Char → Option (List Char × List Char)
  | [] => none
  | c :: cs =>
    if close.isPrefixOf (c :: cs) then some ([], (c :: cs).drop close.length)
    else (findClose close cs).map (fun p => (c :: p.1, p.2))

/-- Match `<(gs\d+)>(.*?)</\1>` at the head of `l`, returning the tag name
`gsN`, the raw content and the rest of the input. -/
def matchGs (l : List Char) : Option (String × String × List Char) :=
  if ("<gs".toList).isPrefixOf l then
    if ((l.drop 3).takeWhile Char.isDigit).isEmpty then none
    else if ((l.drop 3).dropWhile Char.isDigit).head? = some '>' then
      match findClose ("</gs".toList ++ (l.drop 3).takeWhile Char.isDigit ++ ['>'])
          ((l.drop 3).dropWhile Char.isDigit).tail with
      | some (content, rest') =>
          some (.mk ('g' :: 's' :: (l.drop 3).takeWhile Char.isDigit), .mk content, rest')
      | none => none
    else none
  else none

/-- Match `<svg id="([^"]*)"\s*/>` at the head of `l`, returning the id and
the rest of the input. -/
def matchSvg (l : List Char) : Option (String × List Char) :=
  if ("<svg id=\"".toList).isPrefixOf l then
    if ((l.drop 9).dropWhile (fun c => c ≠ '"')).head? = some '"' then
      if (['/', '>']).isPrefixOf
          (((l.drop 9).dropWhile (fun c => c ≠ '"')).tail.dropWhile isPySpace) then
        some (.mk ((l.drop 9).takeWhile (fun c => c ≠ '"')),
          (((l.drop 9).dropWhile (fun c => c ≠ '"')).tail.dropWhile isPySpace).drop 2)
      else none
    else none
  else none

theorem findClose_length_le {close : List Char} :
    ∀ {l : List Char} {content rest : List Char},
      findClose close l = some (content, rest) → rest.length ≤ l.length := by
  intro l
  induction l with
  | nil => intro content rest h; simp [findClose] at h
  | cons c cs ih =>
    intro content rest h
    rw [findClose] at h
    split at h
    · rw [Option.some.injEq, Prod.mk.injEq] at h
      obtain ⟨-, hr⟩ := h
      subst hr
      simp
    · rw [Option.map_eq_some'] at h
      obtain ⟨p, hp1, hp2⟩ := h
      rw [Prod.mk.injEq] at hp2
      obtain ⟨-, hr⟩ := hp2
      subst hr
      exact le_trans (ih hp1) (Nat.le_succ _)

theorem matchGs_length_lt {l : List Char} {tag content : String} {rest : List Char}
    (h : matchGs l = some (tag, content, rest)) : rest.length < l.length := by
  rw [matchGs] at h
  split at h
  case isTrue hpre =>
    split at h
    case isTrue => exact absurd h (by simp)
    case isFalse hdig =>
      split at h
      case isTrue hhead =>
        split at h
        case h_1 content' rest' hfc =>
          rw [Option.some.injEq, Prod.mk.injEq, Prod.mk.injEq] at h
          obtain ⟨-, -, hr⟩ := h
          have h1 : rest.length ≤ ((l.drop 3).dropWhile Char.isDigit).tail.length :=
            hr ▸ findClose_length_le hfc
          have h2 : ((l.drop 3).dropWhile Char.isDigit) ≠ [] := by
            intro hnil
            rw [hnil] at hhead
            simp at hhead
          have h3 : ((l.drop 3).dropWhile Char.isDigit).length ≤ (l.drop 3).length :=
            (List.dropWhile_sublist _).length_le
          have h4 : 3 ≤ l.length := by
            have := List.IsPrefix.length_le (List.isPrefixOf_iff_prefix.mp hpre)
            simpa using this
          have h5 : 0 < ((l.drop 3).dropWhile Char.isDigit).length :=
            List.length_pos.mpr h2
          simp only [List.length_tail, List.length_drop] at h1 h3 ⊢
          omega
        case h_2 => exact absurd h (by simp)
      case isFalse => exact absurd h (by simp)
  case isFalse => exact absurd h (by simp)

theorem matchSvg_length_lt {l : List Char} {ident : String} {rest : List Char}
    (h : matchSvg l = some (ident, rest)) : rest.length < l.length := by
  rw [matchSvg] at h
  split at h
  case isTrue hpre =>
    split at h
    case isTrue hhead =>
      split at h
      case isTrue hclose =>
        rw [Option.some.injEq, Prod.mk.injEq] at h
        obtain ⟨-, hr⟩ := h
        subst hr
        have h2 : ((l.drop 9).dropWhile (fun c => c ≠ '"')) ≠ [] := by
          intro hnil
          rw [hnil] at hhead
          simp at hhead
        have h3 : ((l.drop 9).dropWhile (fun c => c ≠ '"')).length ≤ (l.drop 9).length :=
          (List.dropWhile_sublist _).length_le
        have h4 : 9 ≤ l.length := by
          have := List.IsPrefix.length_le (List.isPrefixOf_iff_prefix.mp hpre)
          simpa using this
        have h5 : 0 < ((l.drop 9).dropWhile (fun c => c ≠ '"')).length :=
          List.length_pos.mpr h2
        have h6 : (((l.drop 9).dropWhile (fun c => c ≠ '"')).tail.dropWhile isPySpace).length
            ≤ ((l.drop 9).dropWhile (fun c => c ≠ '"')).tail.length :=
          (List.dropWhile_sublist _).length_le
        simp only [List.length_drop, List.length_tail] at h3 h6 ⊢
        omega
      case isFalse => exact absurd h (by simp)
    case isFalse => exact absurd h (by simp)
  case isFalse => exact absurd h (by simp)

/-- The style carried by a segment. -/
def Segment.style : Segment → Style
  | .text _ s => s
  | .svg _ _ s => s

/-- The `finditer` scan of `parse_tagged_text`: tries the three regex
alternatives at each position and skips characters where none matches.
A `<gsN>` tag whose id is absent from `styles` falls back to the default
style; an `<svg>` tag whose id is absent from `svgMap` becomes the
plain-text placeholder `[[SVG_id]]`. -/
def parseCore (ds : Style) (styles : List (String × Style))
    (svgMap : List (String × SvgProps)) : List Char → List Segment
  | [] => []
  | c :: cs =>
    match hgs : matchGs (c :: cs) with
    | some (tag, content, rest) =>
      let style := (lookupAssoc styles tag).getD ds
      (if content = "" then [] else [.text content style]) ++ parseCore ds styles svgMap rest
    | none =>
      match hsvg : matchSvg (c :: cs) with
      | some (ident, rest) =>
        (match (lookupAssoc svgMap ident) with
         | some props => [Segment.svg ident props ds]
         | none => [Segment.text ("[[SVG_" ++ ident ++ "]]") ds]) ++
          parseCore ds styles svgMap rest
      | none =>
        if c = '<' then parseCore ds styles svgMap cs
        else
          Segment.text (.mk ((c :: cs).takeWhile (fun d => d ≠ '<'))) ds ::
            parseCore ds styles svgMap ((c :: cs).dropWhile (fun d => d ≠ '<'))
termination_by l => l.length
decreasing_by
  · exact matchGs_length_lt hgs
  · exact matchSvg_length_lt hsvg
  · simp
  · rename_i hc
    have hhd : (c :: cs).dropWhile (fun d => d ≠ '<') = cs.dropWhile (fun d => d ≠ '<') := by
      simp [List.dropWhile_cons, hc]
    rw [hhd]
    simp only [List.length_cons]
    exact Nat.lt_succ_of_le ((List.dropWhile_sublist _).length_le)

/-- `need_space` logic of the inter-segment space-correction pass. -/
def needSpace (prev seg : Segment) : Bool :=
  match prev, seg with
  | .text pt _, .text st _ =>
      !(pt.endsWith " " || pt.endsWith "\n") && !(st.startsWith " " || st.startsWith "\n")
  | .text pt _, .svg _ _ _ => !(pt.endsWith " " || pt.endsWith "\n")
  | .svg _ _ _, .text st _ => !(st.startsWith " " || st.startsWith "\n")
  | .svg _ _ _, .svg _ _ _ => false

/-- The `corrected_segments` pass: insert a one-space text segment (with the
previous segment's style) between adjacent segments that need separation. -/
def spaceCorrect (segments : List Segment) : List Segment :=
  segments.foldl
    (fun acc seg =>
      match acc.getLast? with
      | some prev =>
          if needSpace prev seg then acc ++ [.text " " prev.style, seg] else acc ++ [seg]
      | none => acc ++ [seg])
    []

/-- `parse_tagged_text(text, default_style, styles_dict, svg_mapping_data)`:
scan, space correction, then collapsing of multiple spaces in text segments. -/
def parse_tagged_text (text : String) (defaultStyle : Style)
    (styles : List (String × Style)) (svgMap : List (String × SvgProps)) :
    List Segment :=
  let segments := parseCore defaultStyle styles svgMap text.toList
  (spaceCorrect segments).map fun seg =>
    match seg with
    | .text t s => .text (collapseSpaces t) s
    | sv => sv

/-! ## `format_list_items_for_reflow` (pdf_builder.py) -/

/-- The bullet markers of `format_list_items_for_reflow`. -/
def bulletMarkers : List Char := ['•', '◦', '▪', '▫', '‣', '⁃', '⁌', '⁍', '*', '○', '●']

/-- One `re.sub(rf'(?<=\S)\s*({m})\s*', r'\n\1 ', text)` pass for a single
marker character `m`.  `prevNonSpace` tracks whether the character preceding
the current scan position in the original text exists and is non-whitespace
(the `(?<=\S)` lookbehind). -/
def subMarkerGo (m : Char) : Bool → List Char → List Char
  | _, [] => []
  | false, c :: cs => c :: subMarkerGo m (!isPySpace c) cs
  | true, c :: cs =>
    match hdrop : (c :: cs).dropWhile isPySpace with
    | [] => c :: cs
    | d :: rest =>
      if d = m then
        '\n' :: m :: ' ' ::
          subMarkerGo m (rest.takeWhile isPySpace).isEmpty (rest.dropWhile isPySpace)
      else
        (c :: cs).takeWhile isPySpace ++ d :: subMarkerGo m true rest
termination_by _ l => l.length
decreasing_by
  · simp
  · have h1 : (d :: rest).length ≤ (c :: cs).length := by
      rw [← hdrop]
      exact (List.dropWhile_sublist _).length_le
    have h2 : (rest.dropWhile isPySpace).length ≤ rest.length :=
      (List.dropWhile_sublist _).length_le
    simp only [List.length_cons] at h1 ⊢
    omega
  · have h1 : (d :: rest).length ≤ (c :: cs).length := by
      rw [← hdrop]
      exact (List.dropWhile_sublist _).length_le
    simp only [List.length_cons] at h1 ⊢
    omega

/-- `format_list_items_for_reflow(text, block_type)`. -/
def format_list_items_for_reflow (text : String) (blockType : String) : String :=
  if blockType ≠ "list_item" then text
  else
    bulletMarkers.foldl
      (fun processed m => String.mk (subMarkerGo m false processed.toList))
      (pyStrip text)

/-! ## Merged-text redistribution (pdf_builder.py) -/

/-- The reverse `style_to_tag` map of `_reconstruct_text_with_balises_preserved`
(`(police, taille, couleur) → gsX`); on duplicate triples the last dictionary
insertion wins. -/
def styleToTag (globalStyles : List (String × Style)) (key : Sig) : Option String :=
  ((globalStyles.filter (fun p => p.2.sig = key)).map (·.1)).getLast?

/-- Re-emit one segment with its tag recovered by reverse style lookup. -/
def reconstructSeg (globalStyles : List (String × Style)) (seg : Segment) : String :=
  match seg with
  | .text t style =>
    if t = "" then ""
    else
      match styleToTag globalStyles style.sig with
      | some tag => "<" ++ tag ++ ">" ++ t ++ "</" ++ tag ++ ">"
      | none => t
  | .svg ident _ _ => "<svg id=\"" ++ ident ++ "\"/>"

/-- `_reconstruct_text_with_balises_preserved(segments, global_styles)`. -/
def reconstruct_text_with_balises_preserved (segments : List Segment)
    (globalStyles : List (String × Style)) : String :=
  String.join (segments.map (reconstructSeg globalStyles))

/-- The greedy per-block fill loop of `redistribute_merged_text_fillstrategy`:
assign whole segments while the cumulative set still reflows within the
block's line budget; on overflow of a non-blank text segment, assign the
longest word prefix that fits and carry the remainder.  Returns the segments
assigned to this block and the remaining segments. -/
def fillBlock (cw : CharWidths) (block : Block) (fontScale charSpace : ℚ)
    (budget : ℕ) : List Segment → List Segment → List Segment × List Segment
  | blockSegs, [] => (blockSegs, [])
  | blockSegs, seg :: rest =>
    if (calculate_reflow cw (blockSegs ++ [seg]) block fontScale charSpace).length ≤ budget then
      fillBlock cw block fontScale charSpace budget (blockSegs ++ [seg]) rest
    else
      match seg with
      | .text t style =>
        if stripTruthy t then
          let words := pySplit t
          let nFit :=
            ((List.range words.length).takeWhile (fun j =>
              (calculate_reflow cw
                (blockSegs ++ [.text (joinSpace (words.take (j + 1))) style])
                block fontScale charSpace).length ≤ budget)).length
          if nFit > 0 then
            let fittedSeg := Segment.text (joinSpace (words.take nFit)) style
            let remTxt := joinSpace (words.drop nFit)
            (blockSegs ++ [fittedSeg],
              if stripTruthy remTxt then Segment.text remTxt style :: rest else rest)
          else (blockSegs, seg :: rest)
        else (blockSegs, seg :: rest)
      | _ => (blockSegs, seg :: rest)

/-- `redistribute_merged_text_fillstrategy(merged_text, group_blocks_sorted,
svg_mapping_data, global_styles, font_scale, char_space)`.

Divergences forced by dynamic typing: the source indexes
`group_blocks_sorted[0]` (IndexError for an empty group) and leaks an
unresolvable `default_style_ref` string into `parse_tagged_text` (TypeError
downstream); both error paths are modelled as `none`. -/
def redistribute_merged_text_fillstrategy (cw : CharWidths) (mergedText : String)
    (groupBlocksSorted : List Block) (svgMap : List (String × SvgProps))
    (globalStyles : List (String × Style)) (fontScale charSpace : ℚ) :
    Option (List (String × String)) :=
  match groupBlocksSorted with
  | [] => none
  | firstBlock :: _ =>
    let blockType := firstBlock.blockType
    let refOpt : Option StyleRef :=
      match firstBlock.defaultStyleRef with
      | some r => some r
      | none => firstBlock.defaultStyle.map .direct
    match refOpt with
    | none => none
    | some ref =>
      let resolvedDefault : Option Style :=
        match ref with
        | .direct s => some s
        | .named ident => lookupAssoc globalStyles ident
      match resolvedDefault with
      | none => none
      | some ds =>
        let processed := format_list_items_for_reflow mergedText blockType
        let segments := parse_tagged_text processed ds globalStyles svgMap
        let final := groupBlocksSorted.foldl
          (fun (st : List (String × String) × List Segment) block =>
            let r := fillBlock cw block fontScale charSpace
              (block.lignesOriginales.getD 0) [] st.2
            (st.1 ++ [(block.id, reconstruct_text_with_balises_preserved r.1 globalStyles)],
              r.2))
          ([], segments)
        if final.2.isEmpty then some final.1 else none

/-! ## `create_text_overlay_pdf` drivers (pdf_builder.py) -/

/-- The `(fs_test, cs_test)` ladder of the merged-group loop in
`create_text_overlay_pdf` (`cs_test = -0.1 if fs_test > 0.85 else -0.2`). -/
def mergeLadder : List (ℚ × ℚ) :=
  [(1, -1/10), (19/20, -1/10), (9/10, -1/10), (17/20, -1/5), (4/5, -1/5),
   (3/4, -1/5), (7/10, -1/5)]

/-- Try the merged-group compression ladder, returning the first successful
redistribution together with the compression used. -/
def mergeTryLadder (cw : CharWidths) (mergedText : String)
    (groupSorted : List Block) (svgMap : List (String × SvgProps))
    (globalStyles : List (String × Style)) :
    List (ℚ × ℚ) → Option (List (String × String) × ℚ × ℚ)
  | [] => none
  | (fs, cs) :: rest =>
    match redistribute_merged_text_fillstrategy cw mergedText groupSorted svgMap
        globalStyles fs cs with
    | some r => some (r, fs, cs)
    | none => mergeTryLadder cw mergedText groupSorted svgMap globalStyles rest

/-- The merged-group handling of `create_text_overlay_pdf`: try the ladder;
when nothing fits force maximal compression `fs=0.65, cs=-0.3`.  Returns the
redistribution outcome (`none` when even the forced level overflows — the
source then stores `None` and crashes on the later per-block lookup) and the
compression retained. -/
def merge_group_redistribute (cw : CharWidths) (mergedText : String)
    (groupSorted : List Block) (svgMap : List (String × SvgProps))
    (globalStyles : List (String × Style)) :
    Option (List (String × String)) × ℚ × ℚ :=
  match mergeTryLadder cw mergedText groupSorted svgMap globalStyles mergeLadder with
  | some (r, fs, cs) => (some r, fs, cs)
  | none =>
    (redistribute_merged_text_fillstrategy cw mergedText groupSorted svgMap
        globalStyles (13/20) (-3/10), 13/20, -3/10)

/-- Descending insertion of a rational into a sorted-descending list. -/
def insertDesc (x : ℚ) : List ℚ → List ℚ
  | [] => [x]
  | y :: ys => if x ≥ y then x :: y :: ys else y :: insertDesc x ys

/-- `sorted(list(candidates), reverse=True)` on a set of rationals. -/
def sortDesc (l : List ℚ) : List ℚ := l.foldr insertDesc []

/-- The candidate list of the single-block compression loop in
`create_text_overlay_pdf`: the fixed set `{0.95,…,0.6}` plus the clamped
estimate `max(0.55, min(0.98, estimated_ratio))`, sorted descending.
`estimated_ratio = (lignes_originales/len(lines)) ** 0.75` involves a real
exponent, so it is taken as a parameter. -/
def singleBlockCandidates (estimatedRatio : ℚ) : List ℚ :=
  sortDesc (([19/20, 9/10, 17/20, 4/5, 3/4, 7/10, 13/20, 3/5] ++
    [max (11/20) (min (49/50) estimatedRatio)]).dedup)

/-- The `for fs_test in test_range:` loop of the single-block path
(`cs_test = -0.1 if fs_test > 0.85 else -0.2`). -/
def singleBlockFirstFit (cw : CharWidths) (segments : List Segment) (block : Block)
    (target : ℕ) : List ℚ → Option (List (List LineItem))
  | [] => none
  | fs :: rest =>
    if (calculate_reflow cw segments block fs
        (if fs > 17/20 then -1/10 else -1/5)).length ≤ target then
      some (calculate_reflow cw segments block fs (if fs > 17/20 then -1/10 else -1/5))
    else singleBlockFirstFit cw segments block target rest

/-- The single-block reflow-and-compress logic of `create_text_overlay_pdf`
(lines 1206–1243): first try `fs=1, cs=0`; if the line budget is exceeded,
walk the candidate ladder; if nothing fits keep the uncompressed lines. -/
def single_block_overlay_lines (cw : CharWidths) (segments : List Segment)
    (block : Block) (estimatedRatio : ℚ) : List (List LineItem) :=
  let lines0 := calculate_reflow cw segments block 1 0
  let target := block.lignesOriginales.getD 0
  if lines0.length ≤ target then lines0
  else
    (singleBlockFirstFit cw segments block target
      (singleBlockCandidates estimatedRatio)).getD lines0

/-! ## Global style registry (extract.py) -/

/-- Python 3 `round()` on a rational: round half to even. -/
def pyRound (q : ℚ) : ℤ :=
  if q - ⌊q⌋ < 1/2 then ⌊q⌋
  else if (1 : ℚ)/2 < q - ⌊q⌋ then ⌊q⌋ + 1
  else if ⌊q⌋ % 2 = 0 then ⌊q⌋ else ⌊q⌋ + 1

/-- `normalized_size = 0.2 * round(size / 0.2)` — quantization of a font size
to the nearest multiple of 0.2pt. -/
def normalizeSize (size : ℚ) : ℚ := (1/5) * (pyRound (size / (1/5)) : ℚ)

/-- The registry state of `DualOutputGenerator`: the `global_styles` dict
(`gsN → style`) and the `style_mapping` dict (signature triple → `gsN`). -/
structure Registry where
  globalStyles : List (String × Style)
  styleMapping : List (Sig × String)
deriving DecidableEq, Repr

/-- `get_or_create_global_style(style_dict)` — the nested function of
`_generate_formatting_format` (extract.py lines 1439–1480), the export path:
quantizes the size, looks the signature up in `style_mapping`, otherwise
allocates `gs(max+1)` and records both the style and the mapping entry. -/
def get_or_create_global_style (reg : Registry) (styleDict : Style) :
    String × Registry :=
  let normalizedSize := normalizeSize styleDict.taille
  let signature : Sig := (styleDict.police, normalizedSize, styleDict.couleur)
  match (reg.styleMapping.find? (fun p => p.1 = signature)) with
  | some p => (p.2, reg)
  | none =>
    let existingNumbers := reg.globalStyles.filterMap
      (fun p => if ("gs".isPrefixOf p.1) then (p.1.drop 2).toNat? else none)
    let nextNumber := (existingNumbers.foldl max 0) + 1
    let key := "gs" ++ toString nextNumber
    (key,
      { globalStyles := reg.globalStyles ++
          [(key, ⟨styleDict.police, normalizedSize, styleDict.couleur⟩)]
        styleMapping := reg.styleMapping ++ [(signature, key)] })

/-- `_get_or_create_global_style(style_info)` — the method at extract.py lines
1149–1191 (merge-unification path): looks the *exact* (unquantized) triple up
in `global_styles`, otherwise allocates `gs(max+1)`. -/
def underscore_get_or_create_global_style (globalStyles : List (String × Style))
    (styleInfo : Style) : String × List (String × Style) :=
  match globalStyles.find? (fun p => p.2.sig = styleInfo.sig) with
  | some p => (p.1, globalStyles)
  | none =>
    let existingNums := globalStyles.filterMap
      (fun p =>
        if ("gs".isPrefixOf p.1) ∧ p.1.length > 2 ∧
            (p.1.toList.drop 2).all Char.isDigit then
          (p.1.drop 2).toNat?
        else none)
    let nextNum := (existingNums.foldl max 0) + 1
    let newTag := "gs" ++ toString nextNum
    (newTag, globalStyles ++
      [(newTag, ⟨styleInfo.police, styleInfo.taille, styleInfo.couleur⟩)])

/-! ## Span–block matcher (extract.py) -/

/-- An extracted text run.  `matchedToBlock` holds either the integer block
index written by the automatic matcher (`Sum.inl`) or the block-id string
written by manual linking (`Sum.inr`). -/
structure Span where
  id : ℕ
  text : String
  fontName : String          -- '' models a missing/None font name
  fontSize : ℚ
  colorRgb : ℤ
  isBold : Bool := false
  isItalic : Bool := false
  bboxNormalized : ℚ × ℚ × ℚ × ℚ := (0, 0, 0, 0)
  bboxPixels : ℚ × ℚ × ℚ × ℚ := (0, 0, 0, 0)
  matchedToBlock : Option (ℕ ⊕ String) := none
  textMatchScore : ℚ := 0
  matchQuality : String := ""
deriving DecidableEq, Repr

/-- A detected layout block as consumed by the matcher
(normalized bbox, optional reference content, semantic type). -/
structure MineruBlock where
  type : String
  content : String
  bbox : ℚ × ℚ × ℚ × ℚ
deriving DecidableEq, Repr

/-- `_spans_overlap(span_bbox, block_bbox)`: containment with tolerance. -/
def spansOverlap (tolerance : ℚ) (spanBbox blockBbox : ℚ × ℚ × ℚ × ℚ) : Bool :=
  spanBbox.1 ≥ blockBbox.1 - tolerance ∧
  spanBbox.2.1 ≥ blockBbox.2.1 - tolerance ∧
  spanBbox.2.2.1 ≤ blockBbox.2.2.1 + tolerance ∧
  spanBbox.2.2.2 ≤ blockBbox.2.2.2 + tolerance

/-- `_evaluate_text_match(span_text, block_content)`: 1.0 on substring
containment of the stripped lowercased span text, otherwise the common-token
ratio over tokens of length ≥ 2 (0 when either token set is empty). -/
def evaluate_text_match (spanText blockContent : String) : ℚ :=
  let st := pyLower (pyStrip spanText)
  if !stripTruthy blockContent then 1
  else if isSubstring st blockContent then 1
  else
    let spanWords := ((pySplit st).filter (fun w => 2 ≤ w.length)).dedup
    let blockWords := ((pySplit blockContent).filter (fun w => 2 ≤ w.length)).dedup
    if !spanWords.isEmpty ∧ !blockWords.isEmpty then
      ((spanWords.filter (fun w => blockWords.contains w)).length : ℚ) / spanWords.length
    else 0

/-- `_get_match_quality_label(quality)`. -/
def match_quality_label (quality : ℚ) : String :=
  if quality ≥ 9/10 then "excellent"
  else if quality ≥ 7/10 then "good"
  else if quality ≥ 2/5 then "fair"
  else "poor"

/-- Add a span to the first line group within vertical tolerance 1.0, or
start a new group (the `lines` defaultdict loop). -/
def addToLineGroup (y : ℚ) (span : Span) :
    List (ℚ × List Span) → List (ℚ × List Span)
  | [] => [(y, [span])]
  | g :: gs =>
    if |y - g.1| ≤ 1 then (g.1, g.2 ++ [span]) :: gs
    else g :: addToLineGroup y span gs

/-- Stable ascending insertion sort by a rational key (Python `sorted`). -/
def insertAscBy {α : Type} (key : α → ℚ) (x : α) : List α → List α
  | [] => [x]
  | y :: ys => if key x < key y then x :: y :: ys else y :: insertAscBy key x ys

/-- Stable sort by a rational key. -/
def sortAscBy {α : Type} (key : α → ℚ) (l : List α) : List α :=
  l.foldl (fun acc x => insertAscBy key x acc) []

/-- Reading-order step of `_find_matching_spans_for_block`: group candidate
spans into lines by vertical tolerance, sort lines by Y, spans within a line
by X. -/
def orderSpansReadingOrder (spans : List Span) : List Span :=
  let groups := spans.foldl (fun gs s => addToLineGroup s.bboxPixels.2.1 s gs) []
  (sortAscBy (·.1) groups).flatMap (fun g => sortAscBy (·.bboxPixels.1) g.2)

/-- The text score given to a bbox candidate inside
`_find_matching_spans_for_block`: 1.0 when the block has no reference
content (overlap suffices), else `_evaluate_text_match`. -/
def candidateScore (blockContent : String) (span : Span) : ℚ :=
  if !stripTruthy blockContent then 1
  else evaluate_text_match span.text blockContent

/-- The body of the candidate-selection loop of
`_find_matching_spans_for_block`: skip already-matched spans, require bbox
overlap and a positive score, record score and label on the span. -/
def candidateFoldStep (tolerance : ℚ) (blockContent : String)
    (blockBbox : ℚ × ℚ × ℚ × ℚ) (acc : List Span) (span : Span) : List Span :=
  if span.matchedToBlock ≠ none then acc
  else if spansOverlap tolerance span.bboxNormalized blockBbox then
    if candidateScore blockContent span > 0 then
      acc ++ [{ span with
                textMatchScore := candidateScore blockContent span
                matchQuality := match_quality_label (candidateScore blockContent span) }]
    else acc
  else acc

/-- `_find_matching_spans_for_block(block, pymupdf_spans, page_num)`:
candidate selection (unmatched, bbox overlap, positive text score, score and
label recorded on the span) followed by reading-order sorting. -/
def find_matching_spans_for_block (tolerance : ℚ) (block : MineruBlock)
    (spans : List Span) : List Span :=
  let matching := spans.foldl
    (candidateFoldStep tolerance (pyLower block.content) block.bbox) []
  if matching.isEmpty then [] else orderSpansReadingOrder matching

/-- An enriched block (the fields relevant to matching and styles). -/
structure EnrichedBlock where
  id : String
  blockType : String
  defaultStyle : Style
  matchingSpans : List Span
  matchSource : String := ""
deriving DecidableEq, Repr

/-- The `default_style` computation of `_create_enriched_block`
(extract.py lines 459–468): the *first* matched span's font/size/color, or
the `Unknown` placeholder. -/
def default_style_from_spans (matchingSpans : List Span) : Style :=
  match matchingSpans with
  | first :: _ =>
    if first.fontName ≠ "" then ⟨first.fontName, first.fontSize, first.colorRgb⟩
    else ⟨"Unknown", 12, 0⟩
  | [] => ⟨"Unknown", 12, 0⟩

/-- The dominant-style computation of `_create_styled_content`: the
(font, size, color, bold, italic) key covering the most characters among the
spans with non-empty text; ties resolve to the first-inserted key
(Python `max` over dict iteration order). -/
def dominant_style_key (matchingSpans : List Span) :
    Option (String × ℚ × ℤ × Bool × Bool) :=
  let spanStyles := matchingSpans.filter (fun s => s.text ≠ "")
  let freq := spanStyles.foldl
    (fun (acc : List ((String × ℚ × ℤ × Bool × Bool) × ℕ)) s =>
      let key := (s.fontName, s.fontSize, s.colorRgb, s.isBold, s.isItalic)
      if acc.any (fun p => p.1 = key) then
        acc.map (fun p => if p.1 = key then (p.1, p.2 + s.text.length) else p)
      else acc ++ [(key, s.text.length)])
    []
  (freq.foldl
    (fun (best : Option ((String × ℚ × ℤ × Bool × Bool) × ℕ)) p =>
      match best with
      | none => some p
      | some b => if p.2 > b.2 then some p else best)
    none).map (·.1)

/-- `update_empty_block_style_from_first_span(block)`: only when the block has
spans and its default style is the `Unknown` placeholder, replace it with the
first span having a usable font name (falling back to the first span). -/
def update_empty_block_style_from_first_span (block : EnrichedBlock) : EnrichedBlock :=
  match block.matchingSpans with
  | [] => block
  | first :: restSpans =>
    if block.defaultStyle.police = "Unknown" then
      let chosen := ((first :: restSpans).find?
        (fun s => s.fontName ≠ "" ∧ s.fontName ≠ "Unknown")).getD first
      { block with defaultStyle := ⟨chosen.fontName, chosen.fontSize, chosen.colorRgb⟩ }
    else block

/-- Mark the selected spans in the master span pool
(`for span in matching_spans: span['matched_to_block'] = block_idx`); the
span dicts are shared, so the same score/label updates become visible in the
pool. -/
def markSpans (blockIdx : ℕ) (selected : List Span) (spans : List Span) : List Span :=
  spans.map fun s =>
    match selected.find? (fun t => t.id = s.id) with
    | some t => { t with matchedToBlock := some (.inl blockIdx) }
    | none => s

/-- `_create_isolated_span_block(span, …)` (the fields modelled here): a
single-span block whose span keeps `matched_to_block = None`. -/
def create_isolated_span_block (pageNum : ℕ) (span : Span) : EnrichedBlock :=
  { id := "page" ++ toString (pageNum + 1) ++ "_isolated_pymupdf_" ++ toString span.id
    blockType := "isolated_span"
    defaultStyle := ⟨span.fontName, span.fontSize, span.colorRgb⟩
    matchingSpans := [span] }

/-- The per-page enrichment loop of `_enrich_page_blocks` (matching part):
process the standardized MinerU blocks in order, each claiming its candidate
spans and marking them used, then wrap every still-unmatched span in an
isolated block. -/
def enrich_page_blocks (tolerance : ℚ) (pageNum : ℕ)
    (standardizedBlocks : List MineruBlock) (spans0 : List Span) :
    List EnrichedBlock :=
  let step := standardizedBlocks.foldl
    (fun (st : List EnrichedBlock × List Span × ℕ) block =>
      let (blocks, spans, blockIdx) := st
      let matchingSpans := find_matching_spans_for_block tolerance block spans
      let marked := matchingSpans.map
        (fun s => { s with matchedToBlock := some (.inl blockIdx) })
      let enriched : EnrichedBlock :=
        update_empty_block_style_from_first_span
          { id := "page" ++ toString (pageNum + 1) ++ "_group0_bloc" ++ toString blockIdx
            blockType := block.type
            defaultStyle := default_style_from_spans matchingSpans
            matchingSpans := marked }
      (blocks ++ [enriched], markSpans blockIdx matchingSpans spans, blockIdx + 1))
    ([], spans0, 0)
  let isolated := (step.2.1.filter (fun s => s.matchedToBlock = none)).map
    (create_isolated_span_block pageNum)
  step.1 ++ isolated

/-! ## `DataManager.link_spans_to_block` / `unlink_block` (data_manager.py) -/

/-- `link_spans_to_block(block, spans)`: the target block's span list is
replaced by *copies* of the given spans, each copy marked with the block's id;
the originals — wherever they live — are not touched. -/
def link_spans_to_block (page : List EnrichedBlock) (blockId : String)
    (spans : List Span) : List EnrichedBlock :=
  page.map fun b =>
    if b.id = blockId then
      { b with
        matchingSpans := spans.map (fun s => { s with matchedToBlock := some (.inr blockId) })
        matchSource := "manual" }
    else b

/-- `unlink_block(block)`: clear the block's span list. -/
def unlink_block (page : List EnrichedBlock) (blockId : String) :
    List EnrichedBlock :=
  page.map fun b =>
    if b.id = blockId then { b with matchingSpans := [], matchSource := "unmatched" }
    else b

/-- The span-id set owned by a block. -/
def EnrichedBlock.spanIds (b : EnrichedBlock) : List ℕ := b.matchingSpans.map (·.id)

/-! # Theorems

## C1 — style-id stability under size quantization -/

/-- The quantized signature under which the export path registers a style. -/
def quantSig (s : Style) : Sig := (s.police, normalizeSize s.taille, s.couleur)

/-- Lookup in the registry's `style_mapping`. -/
def regLookup (reg : Registry) (sig : Sig) : Option String :=
  (reg.styleMapping.find? (fun p => p.1 = sig)).map (·.2)

/-- Apply a sequence of further `get_or_create_global_style` calls to a
registry state. -/
def applyStyleCalls (reg : Registry) (calls : List Style) : Registry :=
  calls.foldl (fun r s => (get_or_create_global_style r s).2) reg

theorem get_or_create_lookup_self (reg : Registry) (s : Style) :
    regLookup (get_or_create_global_style reg s).2 (quantSig s) =
      some (get_or_create_global_style reg s).1 := by
  unfold get_or_create_global_style regLookup quantSig
  cases hfind : reg.styleMapping.find? (fun p => p.1 = (s.police, normalizeSize s.taille, s.couleur)) with
  | some p => simp [hfind]
  | none => simp [hfind]

theorem get_or_create_preserves_lookup (reg : Registry) (s : Style) (sig : Sig)
    (v : String) (h : regLookup reg sig = some v) :
    regLookup (get_or_create_global_style reg s).2 sig = some v := by
  unfold get_or_create_global_style
  cases hfind : reg.styleMapping.find? (fun p => p.1 = (s.police, normalizeSize s.taille, s.couleur)) with
  | some p => simpa [hfind] using h
  | none =>
    unfold regLookup at h ⊢
    simp only [hfind, List.find?_append]
    cases hf : reg.styleMapping.find? (fun p => p.1 = sig) with
    | some q => simp_all
    | none => simp [hf] at h

theorem applyStyleCalls_preserves_lookup (calls : List Style) (reg : Registry)
    (sig : Sig) (v : String) (h : regLookup reg sig = some v) :
    regLookup (applyStyleCalls reg calls) sig = some v := by
  induction calls generalizing reg with
  | nil => simpa [applyStyleCalls] using h
  | cons s rest ih =>
    have := get_or_create_preserves_lookup reg s sig v h
    simpa [applyStyleCalls] using ih _ this

theorem get_or_create_of_lookup (reg : Registry) (s : Style) (v : String)
    (h : regLookup reg (quantSig s) = some v) :
    (get_or_create_global_style reg s).1 = v := by
  unfold get_or_create_global_style
  unfold regLookup quantSig at h
  cases hfind : reg.styleMapping.find? (fun p => p.1 = (s.police, normalizeSize s.taille, s.couleur)) with
  | some p => simp_all
  | none => simp [hfind] at h

/-- **C1 (amended)** — In the export path `get_or_create_global_style` (the
nested function of `_generate_formatting_format`), the size is quantized to
the nearest 0.2pt before lookup and before creation; hence any two style
dicts with the same font and color whose sizes quantize equally receive the
same global id, no matter which other `get_or_create_global_style` calls
happen in between.  (The claim's "on every code path" fails: the method
`_get_or_create_global_style` matches exact sizes, see the counterexample.) -/
theorem C1_quantized_id_stable (reg : Registry) (s1 s2 : Style)
    (calls : List Style)
    (hp : s1.police = s2.police) (hc : s1.couleur = s2.couleur)
    (ht : normalizeSize s1.taille = normalizeSize s2.taille) :
    (get_or_create_global_style
        (applyStyleCalls (get_or_create_global_style reg s1).2 calls) s2).1 =
      (get_or_create_global_style reg s1).1 := by
  have hsig : quantSig s2 = quantSig s1 := by
    unfold quantSig
    rw [hp, hc, ht]
  apply get_or_create_of_lookup
  rw [hsig]
  exact applyStyleCalls_preserves_lookup calls _ _ _
    (get_or_create_lookup_self reg s1)

/-- **C1 (witness)** — Arial 12.0pt and Arial 12.04pt quantize equally, so
with an interleaved call on a third style the export path still returns the
id allocated for the first call. -/
theorem C1_quantized_id_stable_witness :
    normalizeSize (12 : ℚ) = normalizeSize (301/25) ∧
      (get_or_create_global_style
          (applyStyleCalls
            (get_or_create_global_style ⟨[], []⟩ ⟨"Arial", 12, 0⟩).2
            [⟨"Times", 9, 0⟩]) ⟨"Arial", 301/25, 0⟩).1 =
        (get_or_create_global_style ⟨[], []⟩ ⟨"Arial", 12, 0⟩).1 :=
  ⟨by with_unfolding_all decide,
   C1_quantized_id_stable ⟨[], []⟩ ⟨"Arial", 12, 0⟩ ⟨"Arial", 301/25, 0⟩
     [⟨"Times", 9, 0⟩] rfl rfl (by with_unfolding_all decide)⟩

/-- **C1 (counterexample)** — The merge-unification path
`_get_or_create_global_style` creates global styles without quantizing:
(Arial, 12.0, 0) and (Arial, 12.04, 0) receive the distinct ids gs1 and gs2,
refuting "the size is quantized … on every code path that creates global
styles". -/
theorem C1_unquantized_path_counterexample :
    (underscore_get_or_create_global_style [] ⟨"Arial", 12, 0⟩).1 = "gs1" ∧
      (underscore_get_or_create_global_style
          (underscore_get_or_create_global_style [] ⟨"Arial", 12, 0⟩).2
          ⟨"Arial", 301/25, 0⟩).1 = "gs2" ∧
      ("gs1" : String) ≠ "gs2" := by
  refine ⟨?_, ?_, ?_⟩ <;> with_unfolding_all decide

/-! ## C6 — block default style -/

/-- **C6 (counterexample)** — A block whose first matched span is styled
(A, 10, 0) over one character while a second span styled (B, 11, 5) covers
eight characters: the dominant span's style triple is (B, 11, 5), but
`_create_enriched_block` sets the default style to the *first* span's
(A, 10, 0), refuting "the block's default style equals the style of its
dominant span". -/
theorem C6_default_style_counterexample :
    default_style_from_spans
        [{ id := 1, text := "x", fontName := "A", fontSize := 10, colorRgb := 0 },
         { id := 2, text := "xxxxxxxx", fontName := "B", fontSize := 11, colorRgb := 5 }] =
      ⟨"A", 10, 0⟩ ∧
    dominant_style_key
        [{ id := 1, text := "x", fontName := "A", fontSize := 10, colorRgb := 0 },
         { id := 2, text := "xxxxxxxx", fontName := "B", fontSize := 11, colorRgb := 5 }] =
      some ("B", 11, 5, false, false) ∧
    (⟨"A", 10, 0⟩ : Style) ≠ ⟨"B", 11, 5⟩ := by
  refine ⟨?_, ?_, ?_⟩ <;> with_unfolding_all decide

/-- **C6 (amended)** — The block default style is the *first* matched span's
(font, size, color) (not the dominant span's); and an empty block
(`Unknown` placeholder) that acquires spans of a single uniform style
inherits exactly that style via `update_empty_block_style_from_first_span`. -/
theorem C6_default_style_first_span (spans : List Span) (first : Span)
    (rest : List Span) (block : EnrichedBlock) (f : String) (sz : ℚ) (c : ℤ)
    (hspans : spans = first :: rest)
    (hfont : first.fontName ≠ "")
    (hblock : block.matchingSpans = spans)
    (hunknown : block.defaultStyle.police = "Unknown")
    (huniform : ∀ s ∈ spans, s.fontName = f ∧ s.fontSize = sz ∧ s.colorRgb = c)
    (hf1 : f ≠ "") (hf2 : f ≠ "Unknown") :
    default_style_from_spans spans = ⟨first.fontName, first.fontSize, first.colorRgb⟩ ∧
      (update_empty_block_style_from_first_span block).defaultStyle = ⟨f, sz, c⟩ := by
  subst hspans
  constructor
  · simp [default_style_from_spans, hfont]
  · unfold update_empty_block_style_from_first_span
    rw [hblock]
    simp only [hunknown, if_pos]
    obtain ⟨hffont, hfsz, hfc⟩ := huniform first (List.mem_cons_self _ _)
    simp [List.find?_cons, hffont, hf1, hf2, hfsz, hfc]

/-- **C6 (witness)** — the amended statement evaluated on a concrete block
with two uniformly styled acquired spans. -/
theorem C6_default_style_first_span_witness :
    default_style_from_spans
        [{ id := 1, text := "u", fontName := "C", fontSize := 9, colorRgb := 3 },
         { id := 2, text := "v", fontName := "C", fontSize := 9, colorRgb := 3 }] =
      ⟨"C", 9, 3⟩ ∧
    (update_empty_block_style_from_first_span
        { id := "b", blockType := "text", defaultStyle := ⟨"Unknown", 12, 0⟩,
          matchingSpans :=
            [{ id := 1, text := "u", fontName := "C", fontSize := 9, colorRgb := 3 },
             { id := 2, text := "v", fontName := "C", fontSize := 9, colorRgb := 3 }] }).defaultStyle =
      ⟨"C", 9, 3⟩ :=
  C6_default_style_first_span _ _ _ _ "C" 9 3 rfl (by with_unfolding_all decide) rfl
    rfl (by with_unfolding_all decide) (by with_unfolding_all decide)
    (by with_unfolding_all decide)

/-! ## C7 — text scoring -/

/-- The claim's scoring formula, stated on the raw (unstripped) span text:
1.0 for case-insensitive substring containment, else the common-token ratio.
(Second definition following the spec's words, for comparison with
`evaluate_text_match`.) -/
def claimed_text_score (spanText blockContent : String) : ℚ :=
  if isSubstring (pyLower spanText) blockContent then 1
  else
    let spanWords := ((pySplit (pyLower spanText)).filter (fun w => 2 ≤ w.length)).dedup
    let blockWords := ((pySplit blockContent).filter (fun w => 2 ≤ w.length)).dedup
    if spanWords.isEmpty ∨ blockWords.isEmpty then 0
    else ((spanWords.filter (fun w => blockWords.contains w)).length : ℚ) / spanWords.length

/-- **C7 (counterexample)** — span text `"abc "` against reference
`"xabcx"`: unstripped, `"abc "` is not a substring, and its only token has no
match, so the claim's formula gives 0; the code strips the span text first
and scores 1.0. -/
theorem C7_text_score_counterexample :
    evaluate_text_match "abc " "xabcx" = 1 ∧
      claimed_text_score "abc " "xabcx" = 0 ∧ (1 : ℚ) ≠ 0 := by
  refine ⟨?_, ?_, ?_⟩ <;> with_unfolding_all decide

theorem mem_insertAscBy {α : Type} (key : α → ℚ) (x a : α) :
    ∀ l : List α, a ∈ insertAscBy key x l → a = x ∨ a ∈ l := by
  intro l
  induction l with
  | nil => intro h; simpa [insertAscBy] using h
  | cons y ys ih =>
    intro h
    rw [insertAscBy] at h
    by_cases hc : key x < key y
    · rw [if_pos hc] at h
      rcases List.mem_cons.mp h with h1 | h1
      · exact Or.inl h1
      · exact Or.inr h1
    · rw [if_neg hc] at h
      rcases List.mem_cons.mp h with h1 | h1
      · exact Or.inr (h1 ▸ List.mem_cons_self y ys)
      · rcases ih h1 with h2 | h2
        · exact Or.inl h2
        · exact Or.inr (List.mem_cons_of_mem _ h2)

theorem mem_sortAscBy {α : Type} (key : α → ℚ) (l : List α) (a : α)
    (h : a ∈ sortAscBy key l) : a ∈ l := by
  unfold sortAscBy at h
  suffices H : ∀ (l : List α) (acc : List α), a ∈ l.foldl (fun acc x => insertAscBy key x acc) acc →
      a ∈ acc ∨ a ∈ l by
    rcases H l [] h with h' | h'
    · simp at h'
    · exact h'
  intro l
  induction l with
  | nil => intro acc h; exact Or.inl h
  | cons x xs ih =>
    intro acc h
    rcases ih (insertAscBy key x acc) h with h' | h'
    · rcases mem_insertAscBy key x a acc h' with h'' | h''
      · exact Or.inr (by simp [h''])
      · exact Or.inl h''
    · exact Or.inr (List.mem_cons_of_mem _ h')

theorem mem_addToLineGroup (y : ℚ) (s : Span) :
    ∀ gs : List (ℚ × List Span), ∀ g ∈ addToLineGroup y s gs,
      ∀ x ∈ g.2, x = s ∨ ∃ g' ∈ gs, x ∈ g'.2 := by
  intro gs
  induction gs with
  | nil =>
    intro g hg x hx
    simp only [addToLineGroup, List.mem_singleton] at hg
    subst hg
    simp at hx
    exact Or.inl hx
  | cons g0 rest ih =>
    intro g hg x hx
    rw [addToLineGroup] at hg
    by_cases hc : |y - g0.1| ≤ 1
    · rw [if_pos hc] at hg
      rcases List.mem_cons.mp hg with hg1 | hg1
      · subst hg1
        simp only [List.mem_append, List.mem_singleton] at hx
        rcases hx with hx | hx
        · exact Or.inr ⟨g0, by simp, hx⟩
        · exact Or.inl hx
      · exact Or.inr ⟨g, List.mem_cons_of_mem _ hg1, hx⟩
    · rw [if_neg hc] at hg
      rcases List.mem_cons.mp hg with hg1 | hg1
      · subst hg1
        exact Or.inr ⟨g, by simp, hx⟩
      · rcases ih g hg1 x hx with h' | ⟨g', hg', hx'⟩
        · exact Or.inl h'
        · exact Or.inr ⟨g', List.mem_cons_of_mem _ hg', hx'⟩

theorem mem_candidateFold (tolerance : ℚ) (blockContent : String)
    (blockBbox : ℚ × ℚ × ℚ × ℚ) :
    ∀ (l acc : List Span),
      (∀ x ∈ acc, 0 < x.textMatchScore ∧
        x.matchQuality = match_quality_label x.textMatchScore) →
      ∀ x ∈ l.foldl (candidateFoldStep tolerance blockContent blockBbox) acc,
        0 < x.textMatchScore ∧
          x.matchQuality = match_quality_label x.textMatchScore := by
  intro l
  induction l with
  | nil => intro acc hacc x hx; exact hacc x hx
  | cons s rest ih =>
    intro acc hacc x hx
    refine ih _ ?_ x hx
    intro y hy
    unfold candidateFoldStep at hy
    split at hy
    · exact hacc y hy
    · split at hy
      · split at hy
        · rw [List.mem_append] at hy
          rcases hy with hy | hy
          · exact hacc y hy
          · rename_i hscore
            simp only [List.mem_singleton] at hy
            subst hy
            exact ⟨hscore, rfl⟩
        · exact hacc y hy
      · exact hacc y hy

theorem mem_lineGroups (spans : List Span) (g : ℚ × List Span) (x : Span)
    (hg : g ∈ spans.foldl (fun gs s => addToLineGroup s.bboxPixels.2.1 s gs) [])
    (hx : x ∈ g.2) : x ∈ spans := by
  suffices H : ∀ (l : List Span) (acc : List (ℚ × List Span)),
      (∀ g' ∈ acc, ∀ y ∈ g'.2, y ∈ spans) → (∀ s ∈ l, s ∈ spans) →
      ∀ g' ∈ l.foldl (fun gs s => addToLineGroup s.bboxPixels.2.1 s gs) acc,
      ∀ y ∈ g'.2, y ∈ spans by
    exact H spans [] (by simp) (fun s hs => hs) g hg x hx
  intro l
  induction l with
  | nil => intro acc hacc _ g' hg' y hy; exact hacc g' hg' y hy
  | cons s0 rest ih =>
    intro acc hacc hl g' hg' y hy
    refine ih (addToLineGroup s0.bboxPixels.2.1 s0 acc) ?_
      (fun t ht => hl t (List.mem_cons_of_mem _ ht)) g' hg' y hy
    intro g2 hg2 z2 hz2
    rcases mem_addToLineGroup _ s0 acc g2 hg2 z2 hz2 with h' | ⟨g3, hg3, hz3⟩
    · rw [h']
      exact hl s0 (by simp)
    · exact hacc g3 hg3 z2 hz3

theorem orderSpans_subset (spans : List Span) (x : Span)
    (h : x ∈ orderSpansReadingOrder spans) : x ∈ spans := by
  unfold orderSpansReadingOrder at h
  rw [List.mem_flatMap] at h
  obtain ⟨g, hg, hx⟩ := h
  have hg' := mem_sortAscBy _ _ _ hg
  exact mem_lineGroups spans g x hg' (mem_sortAscBy _ _ _ hx)

theorem find_matching_selected_property (tolerance : ℚ) (block : MineruBlock)
    (spans : List Span) (sp : Span)
    (h : sp ∈ find_matching_spans_for_block tolerance block spans) :
    0 < sp.textMatchScore ∧ sp.matchQuality = match_quality_label sp.textMatchScore := by
  rw [find_matching_spans_for_block] at h
  split at h
  · simp at h
  · exact mem_candidateFold tolerance (pyLower block.content) block.bbox spans []
      (by simp) sp (orderSpans_subset _ _ h)

/-- **C7 (amended)** — With a non-blank reference text, the matcher's score
is exactly the claim's formula applied to the *whitespace-stripped* span
text (the code strips before the substring test and before tokenizing);
every candidate the matcher keeps has a positive score and carries the
discretized label, and the label thresholds are excellent ≥ 0.9,
good [0.7, 0.9), fair [0.4, 0.7), else poor. -/
theorem C7_text_scoring (s b : String) (q : ℚ) (tolerance : ℚ)
    (block : MineruBlock) (spans : List Span) (sp : Span)
    (hb : stripTruthy b = true)
    (hsel : sp ∈ find_matching_spans_for_block tolerance block spans) :
    evaluate_text_match s b = claimed_text_score (pyStrip s) b ∧
      (0 < sp.textMatchScore ∧
        sp.matchQuality = match_quality_label sp.textMatchScore) ∧
      ((match_quality_label q = "excellent" ↔ 9/10 ≤ q) ∧
       (match_quality_label q = "good" ↔ 7/10 ≤ q ∧ q < 9/10) ∧
       (match_quality_label q = "fair" ↔ 2/5 ≤ q ∧ q < 7/10) ∧
       (match_quality_label q = "poor" ↔ q < 2/5)) := by
  refine ⟨?_, find_matching_selected_property tolerance block spans sp hsel, ?_⟩
  · unfold evaluate_text_match claimed_text_score
    simp only [hb, Bool.not_true, Bool.false_eq_true, if_false]
    split
    · rfl
    · by_cases h1 : (((pySplit (pyLower (pyStrip s))).filter (fun w => 2 ≤ w.length)).dedup).isEmpty
      · simp [h1]
      · by_cases h2 : (((pySplit b).filter (fun w => 2 ≤ w.length)).dedup).isEmpty
        · simp [h1, h2]
        · simp [h1, h2]
  · unfold match_quality_label
    refine ⟨?_, ?_, ?_, ?_⟩ <;> split_ifs with h1 h2 h3 <;>
      simp_all <;> first
        | linarith
        | (intro h; linarith)

/-- The concrete span of the C7 witness, before and after scoring. -/
def c7SpanIn : Span :=
  { id := 1, text := "foo bar", fontName := "A", fontSize := 10, colorRgb := 0, bboxNormalized := (0, 0, 1, 1), bboxPixels := (0, 0, 9, 9) }

/-- The C7 witness span as the matcher stores it (score ½, label "fair"). -/
def c7SpanOut : Span :=
  { c7SpanIn with textMatchScore := 1/2, matchQuality := "fair" }

/-- **C7 (witness)** — the amended statement at a concrete selection: one
overlapping span scoring ½ ("fair"). -/
theorem C7_text_scoring_witness :
    stripTruthy "the bar zone" = true ∧
    c7SpanOut ∈
      find_matching_spans_for_block (1/50) ⟨"text", "the bar zone", (0, 0, 1, 1)⟩
        [c7SpanIn] ∧
    evaluate_text_match "foo bar" "the bar zone" =
      claimed_text_score (pyStrip "foo bar") "the bar zone" := by
  have h1 : stripTruthy "the bar zone" = true := by with_unfolding_all decide
  have h2 : c7SpanOut ∈
      find_matching_spans_for_block (1/50) ⟨"text", "the bar zone", (0, 0, 1, 1)⟩
        [c7SpanIn] := by
    with_unfolding_all decide
  exact ⟨h1, h2,
    (C7_text_scoring "foo bar" "the bar zone" 0 (1/50)
      ⟨"text", "the bar zone", (0, 0, 1, 1)⟩ _ _ h1 h2).1⟩

/-! ## C2 — the compression search -/

/-- The `(fs, cs)` pairs in the order the nested loops of
`compress_block_lines` visit them. -/
def ladderPairs : List (ℚ × ℚ) :=
  fontScaleCandidates.flatMap (fun fs => charSpaceCandidates.map (fun cs => (fs, cs)))

/-- Acceptance test of one ladder combination: line count within the
original budget, or (with positive scaled spacing) within the physical box
height at the scaled line spacing. -/
def compressAccepts (cw : CharWidths) (segments : List Segment) (block : Block)
    (maxL : ℕ) (boxHeight : ℚ) (p : ℚ × ℚ) : Bool :=
  let n := (calculate_reflow cw segments block p.1 p.2).length
  decide (n ≤ maxL) ||
    (decide (0 < estimate_line_spacing_for_scale block p.1) &&
      decide ((n : ℤ) ≤ ⌊boxHeight / estimate_line_spacing_for_scale block p.1⌋))

/-- The result `compress_block_lines` assembles for an accepted combination. -/
def compressResultFor (cw : CharWidths) (segments : List Segment) (block : Block)
    (maxL : ℕ) (p : ℚ × ℚ) : CompressResult :=
  let lt := calculate_reflow cw segments block p.1 p.2
  ⟨lt, p.1, p.2, if lt.length ≤ maxL then "original_spacing" else "scaled_spacing"⟩

theorem compressTryCs_eq_find (cw : CharWidths) (segments : List Segment)
    (block : Block) (maxL : ℕ) (boxHeight : ℚ) (fs : ℚ) (csList : List ℚ) :
    compressTryCs cw segments block maxL boxHeight fs csList =
      ((csList.map (fun cs => (fs, cs))).find?
          (compressAccepts cw segments block maxL boxHeight)).map
        (compressResultFor cw segments block maxL) := by
  induction csList with
  | nil => simp [compressTryCs]
  | cons cs rest ih =>
    rw [compressTryCs]
    simp only [List.map_cons, List.find?_cons]
    by_cases h1 : (calculate_reflow cw segments block fs cs).length ≤ maxL
    · have hacc : compressAccepts cw segments block maxL boxHeight (fs, cs) = true := by
        unfold compressAccepts
        simp [h1]
      rw [hacc]
      simp only [if_pos h1, Option.map_some']
      unfold compressResultFor
      simp [h1]
    · rw [if_neg h1]
      by_cases h2 : estimate_line_spacing_for_scale block fs ≤ 0
      · have hacc : compressAccepts cw segments block maxL boxHeight (fs, cs) = false := by
          unfold compressAccepts
          simp only [Bool.or_eq_false_iff, Bool.and_eq_false_iff, decide_eq_false_iff_not]
          exact ⟨h1, Or.inl (by simpa using h2)⟩
        rw [hacc, if_pos h2]
        exact ih
      · rw [if_neg h2]
        by_cases h3 : ((calculate_reflow cw segments block fs cs).length : ℤ) ≤
            ⌊boxHeight / estimate_line_spacing_for_scale block fs⌋
        · have hacc : compressAccepts cw segments block maxL boxHeight (fs, cs) = true := by
            unfold compressAccepts
            simp only [Bool.or_eq_true, decide_eq_true_eq, Bool.and_eq_true]
            exact Or.inr ⟨by simpa using lt_of_not_ge h2, by simpa using h3⟩
          rw [hacc, if_pos h3]
          simp only [Option.map_some']
          unfold compressResultFor
          simp [h1]
        · have hacc : compressAccepts cw segments block maxL boxHeight (fs, cs) = false := by
            unfold compressAccepts
            simp only [Bool.or_eq_false_iff, Bool.and_eq_false_iff, decide_eq_false_iff_not]
            exact ⟨h1, Or.inr (by simpa using h3)⟩
          rw [hacc, if_neg h3]
          exact ih

theorem compressTryFs_eq_find (cw : CharWidths) (segments : List Segment)
    (block : Block) (maxL : ℕ) (boxHeight : ℚ) (fsList : List ℚ) :
    compressTryFs cw segments block maxL boxHeight fsList =
      ((fsList.flatMap (fun fs => charSpaceCandidates.map (fun cs => (fs, cs)))).find?
          (compressAccepts cw segments block maxL boxHeight)).map
        (compressResultFor cw segments block maxL) := by
  induction fsList with
  | nil => simp [compressTryFs]
  | cons fs rest ih =>
    rw [compressTryFs, compressTryCs_eq_find]
    simp only [List.flatMap_cons, List.find?_append]
    cases hfind : (charSpaceCandidates.map (fun cs => (fs, cs))).find?
        (compressAccepts cw segments block maxL boxHeight) with
    | some p => simp [hfind]
    | none => simp [hfind, ih]

/-- **C2 (amended)** — `compress_block_lines` accepts the *first* ladder
combination (font scales 1.00…0.65 outer, char spacings 0…−0.20 inner) that
satisfies *either* criterion: line count within the original budget
(mode `original_spacing`) or, failing that for the same combination, line
count within the physical box height at the scaled spacing
(mode `scaled_spacing`); when nothing is accepted it falls back to the
uncompressed reflow.  The physical-height criterion is tested per
combination — not only after all combinations have failed the line-count
criterion, which is what the claim asserted (see the counterexample). -/
theorem C2_compression_search_first_accept (cw : CharWidths)
    (segments : List Segment) (block : Block) (maxLinesOriginal : Option ℕ) :
    compress_block_lines cw segments block maxLinesOriginal =
      (let maxL : ℕ := compressMaxL block maxLinesOriginal
      let boxHeight := estimate_box_height_from_original block
      match ladderPairs.find? (compressAccepts cw segments block maxL boxHeight) with
      | some p => compressResultFor cw segments block maxL p
      | none => ⟨calculate_reflow cw segments block 1 0, 1, 0, "original_spacing"⟩) := by
  unfold compress_block_lines
  simp only []
  generalize compressMaxL block maxLinesOriginal = maxL
  unfold ladderPairs
  by_cases h0 : (calculate_reflow cw segments block 1 0).length ≤ maxL
  · rw [if_pos h0]
    have hflat : fontScaleCandidates.flatMap
          (fun fs => charSpaceCandidates.map (fun cs => (fs, cs))) =
        ((1 : ℚ), (0 : ℚ)) ::
          (([(-1/20 : ℚ), -1/10, -3/20, -1/5]).map (fun cs => ((1 : ℚ), cs)) ++
            ([(19/20 : ℚ), 9/10, 17/20, 4/5, 3/4, 7/10, 13/20]).flatMap
              (fun fs => charSpaceCandidates.map (fun cs => (fs, cs)))) := by
      with_unfolding_all rfl
    rw [hflat, List.find?_cons]
    have hacc : compressAccepts cw segments block maxL
        (estimate_box_height_from_original block) (1, 0) = true := by
      unfold compressAccepts
      simp [h0]
    simp only [hacc]
    unfold compressResultFor
    simp [h0]
  · rw [if_neg h0, compressTryFs_eq_find]
    cases hfind : (fontScaleCandidates.flatMap
        (fun fs => charSpaceCandidates.map (fun cs => (fs, cs)))).find?
          (compressAccepts cw segments block maxL
            (estimate_box_height_from_original block)) with
    | some p => simp
    | none => simp

/-- Width model and input of the C2/C3 counterexamples: every character one
unit wide per point of font size. -/
def unitCw : CharWidths := fun _ _ => 1

/-- 20 inline images 5.5 units wide at scale 1 (one per 10-unit line until
the scale drops to 0.9). -/
def c2segments : List Segment :=
  (List.range 20).map (fun i => .svg (toString i) ⟨"x.svg", 11/2, 1, 0⟩ ⟨"F", 10, 0⟩)

/-- A block with a 19-line budget for the C2 counterexample. -/
def c2block : Block :=
  { id := "c", maxAllowableWidth := 10, lignesOriginales := some 19, defaultStyle := some ⟨"F", 21/2, 0⟩, interligneNormal := some (6/5) }

/-- **C2 (counterexample)** — the ladder combination (0.90, 0) wraps within
the 19-line target, yet the search returns (0.95, 0) in `scaled_spacing`
mode with 20 lines: the physical-height acceptance at 0.95 preempts the
line-count acceptance at 0.90, so the search does *not* return the first
combination whose count meets the target, and accepts more lines than the
target although a combination satisfying it exists. -/
theorem C2_compression_search_counterexample :
    (calculate_reflow unitCw c2segments c2block (9/10) 0).length ≤ 19 ∧
    ((9/10 : ℚ), (0 : ℚ)) ∈ ladderPairs ∧
    (compress_block_lines unitCw c2segments c2block none).fs = 19/20 ∧
    (compress_block_lines unitCw c2segments c2block none).mode = "scaled_spacing" ∧
    (compress_block_lines unitCw c2segments c2block none).lines.length = 20 ∧
    ¬((20 : ℕ) ≤ 19) := by
  refine ⟨?_, ?_, ?_, ?_, ?_, ?_⟩ <;> with_unfolding_all decide

/-! ## C3 — fit-failure behaviour -/

theorem singleBlockFirstFit_eq_none (cw : CharWidths) (segments : List Segment)
    (block : Block) (target : ℕ) (l : List ℚ)
    (h : ∀ fs ∈ l, ¬((calculate_reflow cw segments block fs
        (if fs > 17/20 then -1/10 else -1/5)).length ≤ target)) :
    singleBlockFirstFit cw segments block target l = none := by
  induction l with
  | nil => rfl
  | cons fs rest ih =>
    rw [singleBlockFirstFit]
    rw [if_neg (h fs (by simp))]
    exact ih (fun x hx => h x (List.mem_cons_of_mem _ hx))

theorem mergeTryLadder_eq_none (cw : CharWidths) (mergedText : String)
    (groupSorted : List Block) (svgMap : List (String × SvgProps))
    (globalStyles : List (String × Style)) (l : List (ℚ × ℚ))
    (h : ∀ p ∈ l, redistribute_merged_text_fillstrategy cw mergedText groupSorted
        svgMap globalStyles p.1 p.2 = none) :
    mergeTryLadder cw mergedText groupSorted svgMap globalStyles l = none := by
  induction l with
  | nil => rfl
  | cons p rest ih =>
    rw [mergeTryLadder]
    rw [h p (by simp)]
    exact ih (fun q hq => h q (List.mem_cons_of_mem _ hq))

/-- **C3 (amended)** — On fit-failure the three code paths behave
differently, and only two of them keep the least-compressed attempt:
the single-block overlay path keeps the uncompressed `fs=1, cs=0` reflow
(content kept, never an error); `compress_block_lines` likewise falls back
to `fs=1, cs=0` with original spacing; but the merged-group path forces
*maximal* compression `fs=0.65, cs=-0.3`, and its result is whatever the
forced redistribution yields (which can itself be a failure). -/
theorem C3_fit_failure_best_effort (cw : CharWidths) (segments : List Segment)
    (block : Block) (estimatedRatio : ℚ) (maxLinesOriginal : Option ℕ)
    (mergedText : String) (groupSorted : List Block)
    (svgMap : List (String × SvgProps)) (globalStyles : List (String × Style))
    (hsingle : ∀ fs ∈ singleBlockCandidates estimatedRatio,
      ¬((calculate_reflow cw segments block fs
          (if fs > 17/20 then -1/10 else -1/5)).length ≤ block.lignesOriginales.getD 0))
    (hcompress : ∀ p ∈ ladderPairs,
      compressAccepts cw segments block (compressMaxL block maxLinesOriginal)
        (estimate_box_height_from_original block) p = false)
    (hmerge : ∀ p ∈ mergeLadder,
      redistribute_merged_text_fillstrategy cw mergedText groupSorted svgMap
        globalStyles p.1 p.2 = none) :
    single_block_overlay_lines cw segments block estimatedRatio =
        calculate_reflow cw segments block 1 0 ∧
      compress_block_lines cw segments block maxLinesOriginal =
        ⟨calculate_reflow cw segments block 1 0, 1, 0, "original_spacing"⟩ ∧
      (merge_group_redistribute cw mergedText groupSorted svgMap globalStyles).2 =
        (13/20, -3/10) ∧
      (merge_group_redistribute cw mergedText groupSorted svgMap globalStyles).1 =
        redistribute_merged_text_fillstrategy cw mergedText groupSorted svgMap
          globalStyles (13/20) (-3/10) := by
  refine ⟨?_, ?_, ?_, ?_⟩
  · unfold single_block_overlay_lines
    simp only []
    split
    · rfl
    · rw [singleBlockFirstFit_eq_none cw segments block _ _ hsingle]
      rfl
  · have h10 : compressAccepts cw segments block
        (compressMaxL block maxLinesOriginal)
        (estimate_box_height_from_original block) (1, 0) = false :=
      hcompress (1, 0) (by with_unfolding_all decide)
    have hn : ¬((calculate_reflow cw segments block 1 0).length ≤
        compressMaxL block maxLinesOriginal) := by
      intro hle
      have : compressAccepts cw segments block
          (compressMaxL block maxLinesOriginal)
          (estimate_box_height_from_original block) (1, 0) = true := by
        unfold compressAccepts
        simp [hle]
      rw [this] at h10
      exact absurd h10 (by simp)
    unfold compress_block_lines
    simp only []
    rw [if_neg hn, compressTryFs_eq_find]
    have : (fontScaleCandidates.flatMap
        (fun fs => charSpaceCandidates.map (fun cs => (fs, cs)))).find?
          (compressAccepts cw segments block
            (compressMaxL block maxLinesOriginal)
            (estimate_box_height_from_original block)) = none := by
      rw [List.find?_eq_none]
      intro p hp
      rw [hcompress p hp]
      simp
    rw [this]
    simp
  · unfold merge_group_redistribute
    rw [mergeTryLadder_eq_none cw mergedText groupSorted svgMap globalStyles _ hmerge]
  · unfold merge_group_redistribute
    rw [mergeTryLadder_eq_none cw mergedText groupSorted svgMap globalStyles _ hmerge]

/-- Block for the C3 witness: two two-letter words at size 4 never fit one
10-unit line at any single-block ladder scale. -/
def c3block : Block :=
  { id := "s", maxAllowableWidth := 10, lignesOriginales := some 1, defaultStyle := some ⟨"F", 4, 0⟩ }

/-- Segments of the C3 witness. -/
def c3segments : List Segment := parse_tagged_text "aa bb" ⟨"F", 4, 0⟩ [] []

/-- One-block merge group for the C3 witness/counterexample: two words at
size 3.2 fit one line only at the forced `fs=0.65, cs=-0.3`. -/
def c3mergeBlock : Block :=
  { id := "m1", maxAllowableWidth := 10, lignesOriginales := some 1, defaultStyle := some ⟨"F", 16/5, 0⟩, defaultStyleRef := some (.direct ⟨"F", 16/5, 0⟩), interligneNormal := some (6/5) }

/-- **C3 (witness)** — the amended statement on concrete fit-failure inputs. -/
theorem C3_fit_failure_best_effort_witness :
    (∀ fs ∈ singleBlockCandidates (3/5),
      ¬((calculate_reflow unitCw c3segments c3block fs
          (if fs > 17/20 then -1/10 else -1/5)).length ≤ c3block.lignesOriginales.getD 0)) ∧
    single_block_overlay_lines unitCw c3segments c3block (3/5) =
      calculate_reflow unitCw c3segments c3block 1 0 ∧
    compress_block_lines unitCw c3segments c3block none =
      ⟨calculate_reflow unitCw c3segments c3block 1 0, 1, 0, "original_spacing"⟩ ∧
    (merge_group_redistribute unitCw "aa bb" [c3mergeBlock] [] []).2 =
      (13/20, -3/10) := by
  have h1 : ∀ fs ∈ singleBlockCandidates (3/5),
      ¬((calculate_reflow unitCw c3segments c3block fs
          (if fs > 17/20 then -1/10 else -1/5)).length ≤ c3block.lignesOriginales.getD 0) := by
    with_unfolding_all decide
  have h2 : ∀ p ∈ ladderPairs,
      compressAccepts unitCw c3segments c3block (compressMaxL c3block none)
        (estimate_box_height_from_original c3block) p = false := by
    with_unfolding_all decide
  have h3 : ∀ p ∈ mergeLadder,
      redistribute_merged_text_fillstrategy unitCw "aa bb" [c3mergeBlock] [] []
        p.1 p.2 = none := by
    with_unfolding_all decide
  obtain ⟨g1, g2, g3, -⟩ := C3_fit_failure_best_effort unitCw c3segments c3block
    (3/5) none "aa bb" [c3mergeBlock] [] [] h1 h2 h3
  exact ⟨h1, g1, g2, g3⟩

/-- **C3 (counterexample)** — when no merged-group ladder level fits, the
merge path redistributes at forced maximal compression (0.65, −0.3), not at
the least-compressed (1.0, 0.0) the claim asserts; the shares still exist
here (content kept), but at the opposite extreme of compression. -/
theorem C3_merge_path_counterexample :
    (merge_group_redistribute unitCw "aa bb" [c3mergeBlock] [] []).2 =
      (13/20, -3/10) ∧
    (merge_group_redistribute unitCw "aa bb" [c3mergeBlock] [] []).1 =
      some [("m1", "aa bb")] ∧
    ((13/20 : ℚ), (-3/10 : ℚ)) ≠ ((1 : ℚ), (0 : ℚ)) := by
  refine ⟨?_, ?_, ?_⟩ <;> with_unfolding_all decide

/-! ## C10 — reflow preserves content -/

/-- The payload of a line element: the token it carries, or the image id. -/
inductive RPayload where
  | tok (t : String)
  | img (id : String)
deriving DecidableEq, Repr

/-- Extract the payload of a placed line item. -/
def LineItem.payload : LineItem → RPayload
  | .text t _ _ _ _ => .tok t
  | .svg id _ _ _ _ => .img id

/-- All payloads accumulated in a reflow state, in order. -/
def RState.payloads (st : RState) : List RPayload :=
  (st.lines.flatten ++ st.currentLine).map LineItem.payload

/-- The expected payload sequence of one input segment: its
whitespace-preserving tokens part by part (newlines force part breaks and
carry no token), or the image as one atomic item. -/
def segPayloads : Segment → List RPayload
  | .text t _ => ((t.splitOn "\n").map (fun part => (tokenize part).map RPayload.tok)).flatten
  | .svg id _ _ => [.img id]

theorem procToken_payloads (cw : CharWidths) (bd : Block) (fontScale charSpace : ℚ)
    (style : Style) (st : RState) (token : String) :
    (procToken cw bd fontScale charSpace style st token).payloads =
      st.payloads ++ [.tok token] := by
  simp only [procToken, RState.payloads]
  split <;> simp [LineItem.payload]

theorem rstatePushNewline_payloads (st : RState) :
    (rstatePushNewline st).payloads = st.payloads := by
  unfold rstatePushNewline RState.payloads
  split
  · rename_i hemp
    rw [List.isEmpty_iff] at hemp
    simp [hemp]
  · simp

theorem tokenFold_payloads (cw : CharWidths) (bd : Block) (fontScale charSpace : ℚ)
    (style : Style) (tokens : List String) :
    ∀ st : RState,
      (tokens.foldl (procToken cw bd fontScale charSpace style) st).payloads =
        st.payloads ++ tokens.map .tok := by
  induction tokens with
  | nil => intro st; simp
  | cons t rest ih =>
    intro st
    simp only [List.foldl_cons, List.map_cons]
    rw [ih, procToken_payloads]
    simp

theorem procPart_payloads (cw : CharWidths) (bd : Block) (fontScale charSpace : ℚ)
    (style : Style) (st : RState) (i : ℕ) (part : String) :
    (procPart cw bd fontScale charSpace style st i part).payloads =
      st.payloads ++ (tokenize part).map .tok := by
  unfold procPart
  by_cases hi : i > 0
  · rw [if_pos hi]
    by_cases hp : part = ""
    · rw [if_pos hp, rstatePushNewline_payloads, hp]
      simp [tokenize, tokenizeGo]
    · rw [if_neg hp, tokenFold_payloads, rstatePushNewline_payloads]
  · rw [if_neg hi]
    by_cases hp : part = ""
    · rw [if_pos hp, hp]
      simp [tokenize, tokenizeGo]
    · rw [if_neg hp, tokenFold_payloads]

theorem partsFold_payloads (cw : CharWidths) (bd : Block) (fontScale charSpace : ℚ)
    (style : Style) (parts : List String) :
    ∀ (st : RState) (n : ℕ),
      ((parts.foldl
          (fun (p : RState × ℕ) a =>
            (procPart cw bd fontScale charSpace style p.1 p.2 a, p.2 + 1))
          (st, n)).1).payloads =
        st.payloads ++ (parts.map (fun part => (tokenize part).map RPayload.tok)).flatten := by
  induction parts with
  | nil => intro st n; simp
  | cons part rest ih =>
    intro st n
    simp only [List.foldl_cons, List.map_cons, List.flatten_cons]
    rw [ih, procPart_payloads]
    simp

theorem procSegment_payloads (cw : CharWidths) (bd : Block)
    (fontScale charSpace : ℚ) (st : RState) (seg : Segment) :
    (procSegment cw bd fontScale charSpace st seg).payloads =
      st.payloads ++ segPayloads seg := by
  cases seg with
  | text t style =>
    unfold procSegment foldlIdx segPayloads
    exact partsFold_payloads cw bd fontScale charSpace style (t.splitOn "\n") st 0
  | svg ident props style =>
    simp only [procSegment, segPayloads, RState.payloads]
    split <;> simp [LineItem.payload]

theorem segmentsFold_payloads (cw : CharWidths) (bd : Block)
    (fontScale charSpace : ℚ) (segments : List Segment) :
    ∀ st : RState,
      (segments.foldl (procSegment cw bd fontScale charSpace) st).payloads =
        st.payloads ++ (segments.map segPayloads).flatten := by
  induction segments with
  | nil => intro st; simp
  | cons seg rest ih =>
    intro st
    simp only [List.foldl_cons, List.map_cons, List.flatten_cons]
    rw [ih, procSegment_payloads]
    simp

/-- **C10 (confirmed)** — the reflow wrapping preserves content exactly:
flattening the computed lines yields precisely the whitespace-preserving
tokenization of the input segments (newline-split parts tokenized by
`\s+|\S+`, each image one atomic item), with no token dropped, duplicated,
split across lines, or reordered — in particular a token wider than the line
is still placed whole. -/
theorem C10_reflow_preserves_content (cw : CharWidths) (segments : List Segment)
    (bd : Block) (fontScale charSpace : ℚ) :
    ((calculate_reflow cw segments bd fontScale charSpace).flatten).map
        LineItem.payload =
      (segments.map segPayloads).flatten := by
  unfold calculate_reflow
  simp only []
  have h := segmentsFold_payloads cw bd fontScale charSpace segments ⟨[], [], 0, 0⟩
  unfold RState.payloads at h
  simp only [List.flatten_nil, List.nil_append, List.map_nil] at h
  split
  · rename_i hemp
    rw [List.isEmpty_iff] at hemp
    rw [← h, hemp]
    simp
  · rw [← h]
    simp

/-! ## C5 — reflow monotonicity in the compression parameters -/

/-- Simulation relation between the reflow state of the more-compressed run
(`st₂`, smaller widths) and the less-compressed run (`st₁`): current lines
are empty simultaneously, overflow-break counts differ from line-index
counts by the same amount, the wide run's current width is nonnegative, and
the narrow run has strictly fewer finished lines or the same number with no
larger current width. -/
def StateRel (st₂ st₁ : RState) : Prop :=
  (st₂.currentLine = [] ↔ st₁.currentLine = []) ∧
  st₂.lineIndex + st₁.lines.length = st₁.lineIndex + st₂.lines.length ∧
  0 ≤ st₁.currentWidth ∧
  (st₂.lines.length < st₁.lines.length ∨
    (st₂.lines.length = st₁.lines.length ∧
      st₂.lineIndex = st₁.lineIndex ∧
      st₂.currentWidth ≤ st₁.currentWidth))

theorem procToken_rel (cw : CharWidths) (bd : Block) (f₁ c₁ f₂ c₂ : ℚ)
    (style : Style) (st₁ st₂ : RState) (token : String)
    (hrel : StateRel st₂ st₁)
    (hw2 : 0 ≤ tokenWidth cw style f₂ c₂ token)
    (hw12 : tokenWidth cw style f₂ c₂ token ≤ tokenWidth cw style f₁ c₁ token) :
    StateRel (procToken cw bd f₂ c₂ style st₂ token)
      (procToken cw bd f₁ c₁ style st₁ token) := by
  obtain ⟨hemp, hidx, hw1pos, hcase⟩ := hrel
  simp only [procToken]
  generalize hw₂def : tokenWidth cw style f₂ c₂ token = w₂ at hw2 hw12 ⊢
  generalize hw₁def : tokenWidth cw style f₁ c₁ token = w₁ at hw12 ⊢
  have hw1 : (0 : ℚ) ≤ w₁ := le_trans hw2 hw12
  by_cases hb₂ : stripTruthy token = true ∧
      st₂.currentWidth + w₂ > effectiveMaxwidth bd st₂.lineIndex ∧
      ¬st₂.currentLine.isEmpty = true
  · rw [if_pos hb₂]
    by_cases hb₁ : stripTruthy token = true ∧
        st₁.currentWidth + w₁ > effectiveMaxwidth bd st₁.lineIndex ∧
        ¬st₁.currentLine.isEmpty = true
    · -- both runs break
      rw [if_pos hb₁]
      simp only [StateRel]
      refine ⟨by simp, ?_, by linarith, ?_⟩
      · simp only [List.length_append, List.length_cons, List.length_nil]
        omega
      · rcases hcase with h | ⟨h1, h2, h3⟩
        · exact Or.inl (by
            simp only [List.length_append, List.length_cons, List.length_nil]
            omega)
        · refine Or.inr ⟨?_, by omega, by linarith⟩
          simp only [List.length_append, List.length_cons, List.length_nil]
          omega
    · -- only the narrow run breaks
      rw [if_neg hb₁]
      simp only [StateRel]
      rcases hcase with h | ⟨h1, h2, h3⟩
      · -- narrow was strictly behind: counts may equalize
        refine ⟨by simp, ?_, by linarith, ?_⟩
        · simp only [List.length_append, List.length_cons, List.length_nil]
          omega
        · by_cases heq : st₂.lines.length + 1 = st₁.lines.length
          · refine Or.inr ⟨?_, ?_, by linarith⟩
            · simp only [List.length_append, List.length_cons, List.length_nil]
              omega
            · simp only [List.length_append, List.length_cons, List.length_nil] at heq ⊢
              omega
          · exact Or.inl (by
              simp only [List.length_append, List.length_cons, List.length_nil]
              omega)
      · -- equal counts: the narrow run breaking forces the wide run to break
        exfalso
        apply hb₁
        obtain ⟨hstrip, hover, hne⟩ := hb₂
        refine ⟨hstrip, ?_, ?_⟩
        · rw [← h2]
          calc effectiveMaxwidth bd st₂.lineIndex < st₂.currentWidth + w₂ := hover
            _ ≤ st₁.currentWidth + w₁ := by linarith
        · intro habs
          rw [List.isEmpty_iff] at habs
          exact hne (by rw [List.isEmpty_iff]; exact hemp.mpr habs)
  · rw [if_neg hb₂]
    by_cases hb₁ : stripTruthy token = true ∧
        st₁.currentWidth + w₁ > effectiveMaxwidth bd st₁.lineIndex ∧
        ¬st₁.currentLine.isEmpty = true
    · -- only the wide run breaks: the narrow run falls strictly behind
      rw [if_pos hb₁]
      simp only [StateRel]
      refine ⟨by simp, ?_, by linarith, ?_⟩
      · simp only [List.length_append, List.length_cons, List.length_nil]
        omega
      · exact Or.inl (by
          simp only [List.length_append, List.length_cons, List.length_nil]
          rcases hcase with h | ⟨h1, -, -⟩ <;> omega)
    · -- neither run breaks
      rw [if_neg hb₁]
      simp only [StateRel]
      refine ⟨by simp, hidx, by linarith, ?_⟩
      rcases hcase with h | ⟨h1, h2, h3⟩
      · exact Or.inl h
      · exact Or.inr ⟨h1, h2, by linarith⟩

theorem rstatePushNewline_rel (st₁ st₂ : RState) (hrel : StateRel st₂ st₁) :
    StateRel (rstatePushNewline st₂) (rstatePushNewline st₁) := by
  obtain ⟨hemp, hidx, hw1pos, hcase⟩ := hrel
  unfold rstatePushNewline
  by_cases he₂ : st₂.currentLine.isEmpty
  · have he₁ : st₁.currentLine.isEmpty = true := by
      rw [List.isEmpty_iff] at he₂ ⊢
      exact hemp.mp he₂
    rw [if_pos he₂, if_pos he₁]
    simp only [StateRel]
    refine ⟨by simp, by omega, le_refl 0, ?_⟩
    rcases hcase with h | ⟨h1, h2, h3⟩
    · exact Or.inl h
    · exact Or.inr ⟨h1, by omega, le_refl 0⟩
  · have he₁ : ¬st₁.currentLine.isEmpty = true := by
      rw [List.isEmpty_iff] at he₂ ⊢
      intro habs
      exact he₂ (hemp.mpr habs)
    rw [if_neg he₂, if_neg he₁]
    simp only [StateRel]
    refine ⟨by simp, ?_, le_refl 0, ?_⟩
    · simp only [List.length_append, List.length_cons, List.length_nil]
      omega
    · rcases hcase with h | ⟨h1, h2, h3⟩
      · exact Or.inl (by
          simp only [List.length_append, List.length_cons, List.length_nil]
          omega)
      · exact Or.inr ⟨by
          simp only [List.length_append, List.length_cons, List.length_nil]
          omega, by omega, le_refl 0⟩

theorem tokenFold_rel (cw : CharWidths) (bd : Block) (f₁ c₁ f₂ c₂ : ℚ)
    (style : Style) (tokens : List String) :
    ∀ (st₁ st₂ : RState), StateRel st₂ st₁ →
      (∀ tok ∈ tokens, 0 ≤ tokenWidth cw style f₂ c₂ tok ∧
        tokenWidth cw style f₂ c₂ tok ≤ tokenWidth cw style f₁ c₁ tok) →
      StateRel (tokens.foldl (procToken cw bd f₂ c₂ style) st₂)
        (tokens.foldl (procToken cw bd f₁ c₁ style) st₁) := by
  induction tokens with
  | nil => intro st₁ st₂ hrel _; exact hrel
  | cons tok rest ih =>
    intro st₁ st₂ hrel hws
    simp only [List.foldl_cons]
    exact ih _ _
      (procToken_rel cw bd f₁ c₁ f₂ c₂ style st₁ st₂ tok hrel
        (hws tok (by simp)).1 (hws tok (by simp)).2)
      (fun t ht => hws t (List.mem_cons_of_mem _ ht))

theorem procPart_rel (cw : CharWidths) (bd : Block) (f₁ c₁ f₂ c₂ : ℚ)
    (style : Style) (st₁ st₂ : RState) (i : ℕ) (part : String)
    (hrel : StateRel st₂ st₁)
    (hws : ∀ tok ∈ tokenize part, 0 ≤ tokenWidth cw style f₂ c₂ tok ∧
      tokenWidth cw style f₂ c₂ tok ≤ tokenWidth cw style f₁ c₁ tok) :
    StateRel (procPart cw bd f₂ c₂ style st₂ i part)
      (procPart cw bd f₁ c₁ style st₁ i part) := by
  simp only [procPart]
  have hrel' : StateRel (if i > 0 then rstatePushNewline st₂ else st₂)
      (if i > 0 then rstatePushNewline st₁ else st₁) := by
    by_cases hi : i > 0
    · rw [if_pos hi, if_pos hi]
      exact rstatePushNewline_rel st₁ st₂ hrel
    · rw [if_neg hi, if_neg hi]
      exact hrel
  by_cases hp : part = ""
  · rw [if_pos hp, if_pos hp]
    exact hrel'
  · rw [if_neg hp, if_neg hp]
    exact tokenFold_rel cw bd f₁ c₁ f₂ c₂ style (tokenize part) _ _ hrel' hws

/-- Per-segment styling nonnegativity (font sizes and image dimensions are
nonnegative). -/
def segStyleNonneg : Segment → Bool
  | .text _ style => decide (0 ≤ style.taille)
  | .svg _ props _ => decide (0 ≤ props.tailleRef) && decide (0 ≤ props.ratio)

/-- Every token of the segment has nonnegative effective width at the given
compression parameters (the proviso the counterexample forces: negative
char-spacing must not exceed the glyph widths). -/
def segTokenWidthNonneg (cw : CharWidths) (fontScale charSpace : ℚ) : Segment → Bool
  | .text t style => (t.splitOn "\n").all fun part =>
      (tokenize part).all fun tok =>
        decide (0 ≤ tokenWidth cw style fontScale charSpace tok)
  | .svg _ _ _ => true

theorem stringWidth_nonneg (cw : CharWidths) (t font : String) (size : ℚ)
    (hcw : ∀ font ch, 0 ≤ cw font ch) (hsize : 0 ≤ size) :
    0 ≤ stringWidth cw t font size := by
  unfold stringWidth
  apply mul_nonneg hsize
  apply List.sum_nonneg
  intro x hx
  rw [List.mem_map] at hx
  obtain ⟨c, -, hc⟩ := hx
  exact hc ▸ hcw font c

theorem tokenWidth_mono (cw : CharWidths) (style : Style) (f₁ c₁ f₂ c₂ : ℚ)
    (tok : String) (hcw : ∀ font ch, 0 ≤ cw font ch) (ht : 0 ≤ style.taille)
    (hff : f₂ ≤ f₁) (hc : c₂ ≤ c₁) :
    tokenWidth cw style f₂ c₂ tok ≤ tokenWidth cw style f₁ c₁ tok := by
  unfold tokenWidth stringWidth
  have hsum : 0 ≤ ((tok.toList.map (cw (tokenFont style))).sum) := by
    apply List.sum_nonneg
    intro x hx
    rw [List.mem_map] at hx
    obtain ⟨c, -, hc⟩ := hx
    exact hc ▸ hcw (tokenFont style) c
  have h1 : style.taille * f₂ ≤ style.taille * f₁ :=
    mul_le_mul_of_nonneg_left hff ht
  have h2 : style.taille * f₂ * (tok.toList.map (cw (tokenFont style))).sum ≤
      style.taille * f₁ * (tok.toList.map (cw (tokenFont style))).sum :=
    mul_le_mul_of_nonneg_right h1 hsum
  split
  · have : (tok.length : ℚ) * c₂ ≤ (tok.length : ℚ) * c₁ :=
      mul_le_mul_of_nonneg_left hc (by positivity)
    linarith
  · linarith

theorem procSegment_rel (cw : CharWidths) (bd : Block) (f₁ c₁ f₂ c₂ : ℚ)
    (st₁ st₂ : RState) (seg : Segment)
    (hcw : ∀ font ch, 0 ≤ cw font ch)
    (hf2 : 0 ≤ f₂) (hff : f₂ ≤ f₁) (hc : c₂ ≤ c₁)
    (hstyle : segStyleNonneg seg = true)
    (hw : segTokenWidthNonneg cw f₂ c₂ seg = true)
    (hrel : StateRel st₂ st₁) :
    StateRel (procSegment cw bd f₂ c₂ st₂ seg) (procSegment cw bd f₁ c₁ st₁ seg) := by
  cases seg with
  | text t style =>
    simp only [procSegment, foldlIdx]
    simp only [segStyleNonneg, decide_eq_true_eq] at hstyle
    simp only [segTokenWidthNonneg, List.all_eq_true, decide_eq_true_eq] at hw
    suffices H : ∀ (parts : List String) (st₁ st₂ : RState) (n : ℕ),
        StateRel st₂ st₁ →
        (∀ part ∈ parts, ∀ tok ∈ tokenize part,
          0 ≤ tokenWidth cw style f₂ c₂ tok) →
        StateRel
          ((parts.foldl (fun (p : RState × ℕ) a =>
            (procPart cw bd f₂ c₂ style p.1 p.2 a, p.2 + 1)) (st₂, n)).1)
          ((parts.foldl (fun (p : RState × ℕ) a =>
            (procPart cw bd f₁ c₁ style p.1 p.2 a, p.2 + 1)) (st₁, n)).1) by
      exact H (t.splitOn "\n") st₁ st₂ 0 hrel hw
    intro parts
    induction parts with
    | nil => intro st₁ st₂ n hrel _; exact hrel
    | cons part rest ih =>
      intro st₁ st₂ n hrel hws
      simp only [List.foldl_cons]
      refine ih _ _ _ ?_ (fun p hp => hws p (List.mem_cons_of_mem _ hp))
      refine procPart_rel cw bd f₁ c₁ f₂ c₂ style st₁ st₂ n part hrel ?_
      intro tok htok
      exact ⟨hws part (by simp) tok htok,
        tokenWidth_mono cw style f₁ c₁ f₂ c₂ tok hcw hstyle hff hc⟩
  | svg ident props style =>
    obtain ⟨hemp, hidx, hw1pos, hcase⟩ := hrel
    simp only [segStyleNonneg, Bool.and_eq_true, decide_eq_true_eq] at hstyle
    have hw2 : 0 ≤ props.tailleRef * f₂ * props.ratio :=
      mul_nonneg (mul_nonneg hstyle.1 hf2) hstyle.2
    have hw12 : props.tailleRef * f₂ * props.ratio ≤
        props.tailleRef * f₁ * props.ratio :=
      mul_le_mul_of_nonneg_right
        (mul_le_mul_of_nonneg_left hff hstyle.1) hstyle.2
    have hw1 : 0 ≤ props.tailleRef * f₁ * props.ratio := le_trans hw2 hw12
    simp only [procSegment]
    by_cases hb₂ : st₂.currentWidth + props.tailleRef * f₂ * props.ratio >
        effectiveMaxwidth bd st₂.lineIndex ∧ ¬st₂.currentLine.isEmpty = true
    · rw [if_pos hb₂]
      by_cases hb₁ : st₁.currentWidth + props.tailleRef * f₁ * props.ratio >
          effectiveMaxwidth bd st₁.lineIndex ∧ ¬st₁.currentLine.isEmpty = true
      · rw [if_pos hb₁]
        simp only [StateRel]
        refine ⟨by simp, ?_, by linarith, ?_⟩
        · simp only [List.length_append, List.length_cons, List.length_nil]
          omega
        · rcases hcase with h | ⟨h1, h2, h3⟩
          · exact Or.inl (by
              simp only [List.length_append, List.length_cons, List.length_nil]
              omega)
          · refine Or.inr ⟨?_, by omega, by linarith⟩
            simp only [List.length_append, List.length_cons, List.length_nil]
            omega
      · rw [if_neg hb₁]
        simp only [StateRel]
        rcases hcase with h | ⟨h1, h2, h3⟩
        · refine ⟨by simp, ?_, by linarith, ?_⟩
          · simp only [List.length_append, List.length_cons, List.length_nil]
            omega
          · by_cases heq : st₂.lines.length + 1 = st₁.lines.length
            · refine Or.inr ⟨?_, by omega, by linarith⟩
              simp only [List.length_append, List.length_cons, List.length_nil]
              omega
            · exact Or.inl (by
                simp only [List.length_append, List.length_cons, List.length_nil]
                omega)
        · exfalso
          apply hb₁
          obtain ⟨hover, hne⟩ := hb₂
          refine ⟨?_, ?_⟩
          · rw [← h2]
            calc effectiveMaxwidth bd st₂.lineIndex
                < st₂.currentWidth + props.tailleRef * f₂ * props.ratio := hover
              _ ≤ st₁.currentWidth + props.tailleRef * f₁ * props.ratio := by linarith
          · intro habs
            rw [List.isEmpty_iff] at habs
            exact hne (by rw [List.isEmpty_iff]; exact hemp.mpr habs)
    · rw [if_neg hb₂]
      by_cases hb₁ : st₁.currentWidth + props.tailleRef * f₁ * props.ratio >
          effectiveMaxwidth bd st₁.lineIndex ∧ ¬st₁.currentLine.isEmpty = true
      · rw [if_pos hb₁]
        simp only [StateRel]
        refine ⟨by simp, ?_, by linarith, ?_⟩
        · simp only [List.length_append, List.length_cons, List.length_nil]
          omega
        · exact Or.inl (by
            simp only [List.length_append, List.length_cons, List.length_nil]
            rcases hcase with h | ⟨h1, -, -⟩ <;> omega)
      · rw [if_neg hb₁]
        simp only [StateRel]
        refine ⟨by simp, hidx, by linarith, ?_⟩
        rcases hcase with h | ⟨h1, h2, h3⟩
        · exact Or.inl h
        · exact Or.inr ⟨h1, h2, by linarith⟩

/-- **C5 (amended)** — Reflow monotonicity holds under the proviso the
counterexample forces: provided character widths, font sizes and image
dimensions are nonnegative and every token's *effective* width (glyph width
plus char-spacing correction) is still nonnegative at the more compressed
parameters, decreasing the font scale or making the char-spacing more
negative never increases the computed line count.  (Without the proviso,
negative effective token widths break the claim — see the counterexample.) -/
theorem C5_reflow_monotonic (cw : CharWidths) (segments : List Segment)
    (bd : Block) (f₁ c₁ f₂ c₂ : ℚ)
    (hcw : ∀ font ch, 0 ≤ cw font ch)
    (hstyle : ∀ seg ∈ segments, segStyleNonneg seg = true)
    (hf2 : 0 ≤ f₂) (hff : f₂ ≤ f₁) (hc : c₂ ≤ c₁)
    (hw : ∀ seg ∈ segments, segTokenWidthNonneg cw f₂ c₂ seg = true) :
    (calculate_reflow cw segments bd f₂ c₂).length ≤
      (calculate_reflow cw segments bd f₁ c₁).length := by
  simp only [calculate_reflow]
  have hrel : StateRel
      (segments.foldl (procSegment cw bd f₂ c₂) ⟨[], [], 0, 0⟩)
      (segments.foldl (procSegment cw bd f₁ c₁) ⟨[], [], 0, 0⟩) := by
    suffices H : ∀ (l : List Segment) (st₁ st₂ : RState),
        StateRel st₂ st₁ →
        (∀ seg ∈ l, segStyleNonneg seg = true) →
        (∀ seg ∈ l, segTokenWidthNonneg cw f₂ c₂ seg = true) →
        StateRel (l.foldl (procSegment cw bd f₂ c₂) st₂)
          (l.foldl (procSegment cw bd f₁ c₁) st₁) by
      refine H segments _ _ ?_ hstyle hw
      exact ⟨Iff.rfl, rfl, le_refl 0, Or.inr ⟨rfl, rfl, le_refl 0⟩⟩
    intro l
    induction l with
    | nil => intro st₁ st₂ hrel _ _; exact hrel
    | cons seg rest ih =>
      intro st₁ st₂ hrel hstyles hws
      simp only [List.foldl_cons]
      exact ih _ _
        (procSegment_rel cw bd f₁ c₁ f₂ c₂ st₁ st₂ seg hcw hf2 hff hc
          (hstyles seg (by simp)) (hws seg (by simp)) hrel)
        (fun s hs => hstyles s (List.mem_cons_of_mem _ hs))
        (fun s hs => hws s (List.mem_cons_of_mem _ hs))
  obtain ⟨hemp, -, -, hcase⟩ := hrel
  by_cases he₂ : (segments.foldl (procSegment cw bd f₂ c₂) ⟨[], [], 0, 0⟩).currentLine.isEmpty
  · have he₁ : (segments.foldl (procSegment cw bd f₁ c₁) ⟨[], [], 0, 0⟩).currentLine.isEmpty = true := by
      rw [List.isEmpty_iff] at he₂ ⊢
      exact hemp.mp he₂
    rw [if_pos he₂, if_pos he₁]
    rcases hcase with h | ⟨h1, -, -⟩
    · exact le_of_lt h
    · exact le_of_eq h1
  · have he₁ : ¬(segments.foldl (procSegment cw bd f₁ c₁) ⟨[], [], 0, 0⟩).currentLine.isEmpty = true := by
      rw [List.isEmpty_iff] at he₂ ⊢
      intro habs
      exact he₂ (hemp.mpr habs)
    rw [if_neg he₂, if_neg he₁]
    simp only [List.length_append, List.length_cons, List.length_nil]
    rcases hcase with h | ⟨h1, -, -⟩
    · omega
    · omega

/-- The C5 counterexample segments: five one-token runs whose effective
widths at char-spacing −0.2 include a 40-character run of tiny glyphs with
*negative* effective width. -/
def c5segments : List Segment :=
  [.text "a" ⟨"F", 12, 0⟩, .text "b" ⟨"F", 2/5, 0⟩,
   .text (String.mk (List.replicate 40 'c')) ⟨"F", 1/100, 0⟩,
   .text "t" ⟨"F", 16, 0⟩, .text "u" ⟨"F", 1, 0⟩]

/-- A plain 10-unit-wide block for the C5 counterexample. -/
def c5block : Block := { id := "b", maxAllowableWidth := 10 }

/-- **C5 (counterexample)** — at char-spacing −0.2, shrinking the font scale
from 1.0 to 0.75 *increases* the computed line count from 2 to 3: the
40-character tiny-glyph token has negative effective width, which lets the
less-compressed run "bank" negative width on its current line. -/
theorem C5_reflow_monotonic_counterexample :
    ((3 : ℚ)/4 ≤ 1) ∧
    (calculate_reflow unitCw c5segments c5block 1 (-1/5)).length = 2 ∧
    (calculate_reflow unitCw c5segments c5block (3/4) (-1/5)).length = 3 ∧
    ¬((3 : ℕ) ≤ 2) := by
  refine ⟨?_, ?_, ?_, ?_⟩ <;> with_unfolding_all decide

/-- The C5 witness input: two words at size 10 in a 15-unit-wide block. -/
def c5wSegs : List Segment := [Segment.text "ab cd" ⟨"F", 10, 0⟩]

/-- The C5 witness block. -/
def c5wBlock : Block := { id := "w", maxAllowableWidth := 15 }

/-- **C5 (witness)** — the amended monotonicity applied to a concrete input
with positive effective widths: two words at size 10, scale 1 → 0.9,
spacing 0 → −1/20. -/
theorem C5_reflow_monotonic_witness :
    ((0:ℚ) ≤ 9/10) ∧ ((9:ℚ)/10 ≤ 1) ∧ ((-1:ℚ)/20 ≤ 0) ∧
    (∀ seg ∈ c5wSegs, segStyleNonneg seg = true) ∧
    (∀ seg ∈ c5wSegs, segTokenWidthNonneg unitCw (9/10) (-1/20) seg = true) ∧
    (calculate_reflow unitCw c5wSegs c5wBlock (9/10) (-1/20)).length ≤
      (calculate_reflow unitCw c5wSegs c5wBlock 1 0).length := by
  refine ⟨by with_unfolding_all decide, by with_unfolding_all decide,
    by with_unfolding_all decide, by with_unfolding_all decide,
    by with_unfolding_all decide, ?_⟩
  exact C5_reflow_monotonic unitCw c5wSegs c5wBlock 1 0 (9/10) (-1/20)
    (fun font ch => by unfold unitCw; norm_num)
    (by with_unfolding_all decide)
    (by with_unfolding_all decide)
    (by with_unfolding_all decide)
    (by with_unfolding_all decide)
    (by with_unfolding_all decide)

/-- A style is the default or a value of the style table. -/
def styleFromTable (ds : Style) (styles : List (String × Style)) (st : Style) : Prop :=
  st = ds ∨ ∃ tag s, lookupAssoc styles tag = some s ∧ st = s

theorem parseCore_style_closure (ds : Style) (styles : List (String × Style))
    (svgMap : List (String × SvgProps)) :
    ∀ (l : List Char), ∀ seg ∈ parseCore ds styles svgMap l,
      styleFromTable ds styles seg.style := by
  have H : ∀ (n : ℕ) (l : List Char), l.length ≤ n →
      ∀ seg ∈ parseCore ds styles svgMap l, styleFromTable ds styles seg.style := by
    intro n
    induction n with
    | zero =>
      intro l hl seg hseg
      have hnil : l = [] := List.eq_nil_of_length_eq_zero (Nat.le_zero.mp hl)
      subst hnil
      rw [parseCore] at hseg
      exact absurd hseg (List.not_mem_nil seg)
    | succ n ih =>
      intro l hl seg hseg
      cases l with
      | nil =>
        rw [parseCore] at hseg
        exact absurd hseg (List.not_mem_nil seg)
      | cons c cs =>
        simp only [List.length_cons] at hl
        rw [parseCore] at hseg
        split at hseg
        · rename_i tag' content' rest' hgs'
          rw [List.mem_append] at hseg
          rcases hseg with hseg | hseg
          · split at hseg
            · exact absurd hseg (List.not_mem_nil seg)
            · rw [List.mem_singleton] at hseg
              subst hseg
              cases hlk : lookupAssoc styles tag' with
              | none => left; simp [Segment.style, hlk]
              | some st => right; exact ⟨tag', st, hlk, by simp [Segment.style, hlk]⟩
          · refine ih rest' ?_ seg hseg
            have := matchGs_length_lt hgs'
            simp only [List.length_cons] at this
            omega
        · rename_i hgs'
          split at hseg
          · rename_i ident' rest' hsvg'
            rw [List.mem_append] at hseg
            rcases hseg with hseg | hseg
            · split at hseg
              · rw [List.mem_singleton] at hseg
                subst hseg
                left
                simp [Segment.style]
              · rw [List.mem_singleton] at hseg
                subst hseg
                left
                simp [Segment.style]
            · refine ih rest' ?_ seg hseg
              have := matchSvg_length_lt hsvg'
              simp only [List.length_cons] at this
              omega
          · rename_i hsvg'
            split at hseg
            · exact ih cs (by omega) seg hseg
            · rename_i hc
              rw [List.mem_cons] at hseg
              rcases hseg with hseg | hseg
              · subst hseg
                left
                simp [Segment.style]
              · refine ih _ ?_ seg hseg
                have hdw : (c :: cs).dropWhile (fun d => decide (d ≠ '<')) =
                    cs.dropWhile (fun d => decide (d ≠ '<')) := by
                  simp [List.dropWhile_cons, hc]
                rw [hdw]
                have := (List.dropWhile_sublist (l := cs)
                  (fun d => decide (d ≠ '<'))).length_le
                omega
  intro l
  exact H l.length l le_rfl

theorem spaceCorrect_style_closure (P : Style → Prop) (segs : List Segment)
    (h : ∀ seg ∈ segs, P seg.style) : ∀ seg ∈ spaceCorrect segs, P seg.style := by
  unfold spaceCorrect
  suffices H : ∀ (l : List Segment) (acc : List Segment),
      (∀ s ∈ acc, P s.style) → (∀ s ∈ l, P s.style) →
      ∀ s ∈ l.foldl
        (fun acc seg =>
          match acc.getLast? with
          | some prev =>
              if needSpace prev seg then acc ++ [.text " " prev.style, seg] else acc ++ [seg]
          | none => acc ++ [seg])
        acc, P s.style by
    exact fun seg hseg => H segs [] (by simp) h seg hseg
  intro l
  induction l with
  | nil => intro acc hacc _ s hs; exact hacc s hs
  | cons seg rest ih =>
    intro acc hacc hl s hs
    rw [List.foldl_cons] at hs
    refine ih _ ?_ (fun x hx => hl x (List.mem_cons_of_mem _ hx)) s hs
    intro x hx
    have hseg : P seg.style := hl seg (List.mem_cons_self _ _)
    split at hx
    · rename_i prev hgl
      have hprev : P prev.style := by
        obtain ⟨hne, heq⟩ := List.mem_getLast?_eq_getLast (Option.mem_def.mpr hgl)
        exact heq ▸ hacc _ (heq ▸ List.getLast_mem hne)
      split at hx
      · rw [List.mem_append, List.mem_cons, List.mem_singleton] at hx
        rcases hx with hx | hx | hx
        · exact hacc x hx
        · rw [hx]; exact hprev
        · exact hx ▸ hseg
      · rw [List.mem_append, List.mem_singleton] at hx
        rcases hx with hx | hx
        · exact hacc x hx
        · exact hx ▸ hseg
    · rw [List.mem_append, List.mem_singleton] at hx
      rcases hx with hx | hx
      · exact hacc x hx
      · exact hx ▸ hseg

theorem parse_tagged_text_style_closure (text : String) (ds : Style)
    (styles : List (String × Style)) (svgMap : List (String × SvgProps)) :
    ∀ seg ∈ parse_tagged_text text ds styles svgMap,
      styleFromTable ds styles seg.style := by
  intro seg hseg
  simp only [parse_tagged_text] at hseg
  rw [List.mem_map] at hseg
  obtain ⟨s, hs, hmap⟩ := hseg
  have hP := spaceCorrect_style_closure (styleFromTable ds styles) _
    (parseCore_style_closure ds styles svgMap _) s hs
  cases s with
  | text t st => subst hmap; simpa [Segment.style] using hP
  | svg i p st => subst hmap; simpa [Segment.style] using hP

theorem parseCore_svg_dangling (ds : Style) (styles : List (String × Style))
    (svgMap : List (String × SvgProps)) (c : Char) (cs : List Char)
    (ident : String) (rest : List Char)
    (hnogs : matchGs (c :: cs) = none)
    (hsvg : matchSvg (c :: cs) = some (ident, rest))
    (hdang : lookupAssoc svgMap ident = none) :
    parseCore ds styles svgMap (c :: cs) =
      Segment.text ("[[SVG_" ++ ident ++ "]]") ds ::
        parseCore ds styles svgMap rest := by
  rw [parseCore]
  split
  · rename_i tag' content' rest' hgs'
    rw [hnogs] at hgs'
    exact absurd hgs' (by simp)
  · rename_i hgs'
    split
    · rename_i ident' rest' hsvg'
      rw [hsvg] at hsvg'
      rw [Option.some.injEq, Prod.mk.injEq] at hsvg'
      obtain ⟨h1, h2⟩ := hsvg'
      subst h1; subst h2
      rw [hdang]
      rfl
    · rename_i hsvg'
      rw [hsvg] at hsvg'
      exact absurd hsvg' (by simp)

theorem parseCore_gs_dangling (ds : Style) (styles : List (String × Style))
    (svgMap : List (String × SvgProps)) (c : Char) (cs : List Char)
    (tag content : String) (rest : List Char)
    (hgs : matchGs (c :: cs) = some (tag, content, rest))
    (hdang : lookupAssoc styles tag = none) :
    parseCore ds styles svgMap (c :: cs) =
      (if content = "" then [] else [Segment.text content ds]) ++
        parseCore ds styles svgMap rest := by
  rw [parseCore]
  split
  · rename_i tag' content' rest' hgs'
    rw [hgs] at hgs'
    rw [Option.some.injEq, Prod.mk.injEq, Prod.mk.injEq] at hgs'
    obtain ⟨h1, h2, h3⟩ := hgs'
    subst h1; subst h2; subst h3
    rw [hdang, Option.getD_none]
  · rename_i hgs'
    rw [hgs] at hgs'
    exact absurd hgs' (by simp)

/-- **C9** — dangling tag references degrade, never error: a `<gsN>` tag whose
id is absent from the style table renders its content with the default style;
an `<svg id=.../>` whose id is absent from the svg mapping becomes the plain
placeholder text `[[SVG_id]]` in default style; and every segment produced by
the (total) parse carries either the default style or a value of the style
table. -/
theorem C9_dangling_references
    (ds : Style) (styles : List (String × Style)) (svgMap : List (String × SvgProps))
    (c₁ : Char) (cs₁ : List Char) (tag content : String) (rest₁ : List Char)
    (c₂ : Char) (cs₂ : List Char) (ident : String) (rest₂ : List Char)
    (hgs : matchGs (c₁ :: cs₁) = some (tag, content, rest₁))
    (hdangGs : lookupAssoc styles tag = none)
    (hnogs : matchGs (c₂ :: cs₂) = none)
    (hsvg : matchSvg (c₂ :: cs₂) = some (ident, rest₂))
    (hdangSvg : lookupAssoc svgMap ident = none) :
    parseCore ds styles svgMap (c₁ :: cs₁) =
      (if content = "" then [] else [Segment.text content ds]) ++
        parseCore ds styles svgMap rest₁ ∧
    parseCore ds styles svgMap (c₂ :: cs₂) =
      Segment.text ("[[SVG_" ++ ident ++ "]]") ds ::
        parseCore ds styles svgMap rest₂ ∧
    ∀ (text : String), ∀ seg ∈ parse_tagged_text text ds styles svgMap,
      styleFromTable ds styles seg.style :=
  ⟨parseCore_gs_dangling ds styles svgMap c₁ cs₁ tag content rest₁ hgs hdangGs,
   parseCore_svg_dangling ds styles svgMap c₂ cs₂ ident rest₂ hnogs hsvg hdangSvg,
   fun text => parse_tagged_text_style_closure text ds styles svgMap⟩

/-- The default style used in the C9 witness. -/
def c9ds : Style := ⟨"F", 10, 0⟩

/-- **C9 (witness)** — the dangling-reference behaviour at the concrete inputs
`<gs1>hi</gs1>` (with an *empty* style table) and `<svg id="X"/>` (with an
empty svg mapping). -/
theorem C9_dangling_references_witness :
    matchGs ('<' :: "gs1>hi</gs1>".toList) = some ("gs1", "hi", []) ∧
    lookupAssoc ([] : List (String × Style)) "gs1" = none ∧
    matchGs ('<' :: "svg id=\"X\"/>".toList) = none ∧
    matchSvg ('<' :: "svg id=\"X\"/>".toList) = some ("X", []) ∧
    lookupAssoc ([] : List (String × SvgProps)) "X" = none ∧
    parseCore c9ds [] [] ('<' :: "gs1>hi</gs1>".toList) =
      (if "hi" = "" then [] else [Segment.text "hi" c9ds]) ++
        parseCore c9ds [] [] [] ∧
    parseCore c9ds [] [] ('<' :: "svg id=\"X\"/>".toList) =
      Segment.text ("[[SVG_" ++ "X" ++ "]]") c9ds :: parseCore c9ds [] [] [] := by
  have h1 : matchGs ('<' :: "gs1>hi</gs1>".toList) = some ("gs1", "hi", []) := by
    with_unfolding_all decide
  have h2 : lookupAssoc ([] : List (String × Style)) "gs1" = none := rfl
  have h3 : matchGs ('<' :: "svg id=\"X\"/>".toList) = none := by
    with_unfolding_all decide
  have h4 : matchSvg ('<' :: "svg id=\"X\"/>".toList) = some ("X", []) := by
    with_unfolding_all decide
  have h5 : lookupAssoc ([] : List (String × SvgProps)) "X" = none := rfl
  have hmain := C9_dangling_references c9ds [] [] '<' ("gs1>hi</gs1>".toList)
    "gs1" "hi" [] '<' ("svg id=\"X\"/>".toList) "X" [] h1 h2 h3 h4 h5
  exact ⟨h1, h2, h3, h4, h5, hmain.1, hmain.2.1⟩

/-! ## C4 — redistribution conserves text modulo whitespace -/

theorem filterFlatten {α : Type} (p : α → Bool) :
    ∀ (L : List (List α)), L.flatten.filter p = (L.map (·.filter p)).flatten := by
  intro L
  induction L with
  | nil => rfl
  | cons l rest ih => simp [List.filter_append, ih]

theorem tokenizeGo_flatten : ∀ (l : List Char), (tokenizeGo l).flatten = l := by
  have H : ∀ (n : ℕ) (l : List Char), l.length ≤ n → (tokenizeGo l).flatten = l := by
    intro n
    induction n with
    | zero =>
      intro l hl
      have hnil : l = [] := List.eq_nil_of_length_eq_zero (Nat.le_zero.mp hl)
      subst hnil
      rw [tokenizeGo]
      rfl
    | succ n ih =>
      intro l hl
      cases l with
      | nil =>
        rw [tokenizeGo]
        rfl
      | cons c cs =>
        have hlen : (cs.dropWhile (fun d => isPySpace d == isPySpace c)).length ≤ n := by
          simp only [List.length_cons] at hl
          have := (List.dropWhile_sublist (l := cs)
            (fun d => isPySpace d == isPySpace c)).length_le
          omega
        rw [tokenizeGo, List.flatten_cons, ih _ hlen, List.cons_append,
          List.takeWhile_append_dropWhile]
  intro l
  exact H l.length l le_rfl

theorem tokenizeGo_homog : ∀ (l : List Char), ∀ t ∈ tokenizeGo l,
    ∃ c cs', t = c :: cs' ∧ ∀ d ∈ t, isPySpace d = isPySpace c := by
  have H : ∀ (n : ℕ) (l : List Char), l.length ≤ n → ∀ t ∈ tokenizeGo l,
      ∃ c cs', t = c :: cs' ∧ ∀ d ∈ t, isPySpace d = isPySpace c := by
    intro n
    induction n with
    | zero =>
      intro l hl t ht
      have hnil : l = [] := List.eq_nil_of_length_eq_zero (Nat.le_zero.mp hl)
      subst hnil
      rw [tokenizeGo] at ht
      exact absurd ht (List.not_mem_nil t)
    | succ n ih =>
      intro l hl t ht
      cases l with
      | nil =>
        rw [tokenizeGo] at ht
        exact absurd ht (List.not_mem_nil t)
      | cons c cs =>
        simp only [List.length_cons] at hl
        rw [tokenizeGo, List.mem_cons] at ht
        rcases ht with ht | ht
        · refine ⟨c, _, ht, ?_⟩
          intro d hd
          rw [ht, List.mem_cons] at hd
          rcases hd with hd | hd
          · rw [hd]
          · exact eq_of_beq
              (List.mem_takeWhile_imp
                (p := fun d => isPySpace d == isPySpace c) hd)
        · refine ih _ ?_ t ht
          have := (List.dropWhile_sublist (l := cs)
            (fun d => isPySpace d == isPySpace c)).length_le
          omega
  intro l
  exact H l.length l le_rfl

theorem flattenMapFilter {α β : Type} (f : α → List β) (q : α → Bool) :
    ∀ (toks : List α), (∀ t ∈ toks, q t = false → f t = []) →
      ((toks.filter q).map f).flatten = (toks.map f).flatten := by
  intro toks
  induction toks with
  | nil => intro _; rfl
  | cons t rest ih =>
    intro h
    cases hq : q t with
    | true =>
      simp [List.filter_cons, hq, ih (fun x hx => h x (List.mem_cons_of_mem _ hx))]
    | false =>
      have hf : f t = [] := h t (List.mem_cons_self _ _) hq
      simp [List.filter_cons, hq, hf, ih (fun x hx => h x (List.mem_cons_of_mem _ hx))]

theorem pySplit_nonWs (t : String) :
    ((pySplit t).map nonWsChars).flatten = nonWsChars t := by
  have hdropPrf : ∀ tk ∈ tokenizeGo t.toList,
      (fun tk => !(tk.headD ' ' |> isPySpace)) tk = false →
        (nonWsChars ∘ String.mk) tk = [] := by
    intro tk htk hq
    obtain ⟨c, cs', htkeq, hhomog⟩ := tokenizeGo_homog t.toList tk htk
    rw [htkeq] at hq
    simp only [List.headD_cons] at hq
    simp at hq
    show List.filter (fun x => !isPySpace x) tk = []
    rw [List.filter_eq_nil_iff]
    intro a ha
    have hd := hhomog a ha
    simp [hd, hq]
  unfold pySplit
  rw [List.map_map]
  rw [flattenMapFilter (nonWsChars ∘ String.mk)
    (fun tk => !(tk.headD ' ' |> isPySpace)) (tokenizeGo t.toList) hdropPrf]
  have hmapeq : (tokenizeGo t.toList).map (nonWsChars ∘ String.mk) =
      (tokenizeGo t.toList).map (List.filter (fun c => !isPySpace c)) :=
    List.map_congr_left (fun tk _ => rfl)
  rw [hmapeq, ← filterFlatten, tokenizeGo_flatten]
  rfl

theorem intercalateGo_data (s : String) :
    ∀ (as : List String) (acc : String),
      (String.intercalate.go acc s as).data =
        acc.data ++ (as.map (fun a => s.data ++ a.data)).flatten := by
  intro as
  induction as with
  | nil => intro acc; simp [String.intercalate.go]
  | cons a rest ih =>
    intro acc
    rw [String.intercalate.go, ih]
    simp

theorem joinSpace_cons_data (w : String) (ws : List String) :
    (joinSpace (w :: ws)).data = w.data ++ (ws.map (fun a => ' ' :: a.data)).flatten := by
  unfold joinSpace String.intercalate
  rw [intercalateGo_data]
  have hfe : (fun (a : String) => " ".data ++ a.data) = (fun a => ' ' :: a.data) :=
    funext (fun a => rfl)
  rw [hfe]

theorem nonWsChars_joinSpace : ∀ (ws : List String),
    nonWsChars (joinSpace ws) = (ws.map nonWsChars).flatten := by
  intro ws
  cases ws with
  | nil => rfl
  | cons w rest =>
    show (joinSpace (w :: rest)).data.filter (fun c => !isPySpace c) =
      (List.map nonWsChars (w :: rest)).flatten
    rw [joinSpace_cons_data, List.filter_append, filterFlatten, List.map_map,
      List.map_cons, List.flatten_cons]
    refine congrArg₂ (· ++ ·) rfl ?_
    apply congrArg
    apply List.map_congr_left
    intro a _
    show List.filter (fun c => !isPySpace c) (' ' :: a.data) =
      List.filter (fun c => !isPySpace c) a.data
    rw [List.filter_cons_of_neg (by simp [isPySpace])]

theorem stripTruthy_false_nonWs (s : String) (h : stripTruthy s = false) :
    nonWsChars s = [] := by
  unfold stripTruthy at h
  rw [Bool.not_eq_false'] at h
  rw [String.isEmpty_iff] at h
  unfold pyStrip at h
  have hl : ((s.toList.dropWhile isPySpace).reverse.dropWhile isPySpace).reverse = [] :=
    congrArg String.data h
  rw [List.reverse_eq_nil_iff, List.dropWhile_eq_nil_iff] at hl
  unfold nonWsChars
  rw [List.filter_eq_nil_iff]
  intro a ha
  rw [← List.takeWhile_append_dropWhile (p := isPySpace) (l := s.toList),
    List.mem_append] at ha
  rcases ha with ha | ha
  · have := List.mem_takeWhile_imp (p := isPySpace) ha
    simp [this]
  · have := hl a (List.mem_reverse.mpr ha)
    simp [this]

theorem filter_dropWhileSpace (cs : List Char) :
    (cs.dropWhile (· = ' ')).filter (fun c => !isPySpace c) =
      cs.filter (fun c => !isPySpace c) := by
  induction cs with
  | nil => rfl
  | cons c rest ih =>
    by_cases hc : c = ' '
    · subst hc
      rw [List.dropWhile_cons_of_pos (by simp), ih,
        List.filter_cons_of_neg (by simp [isPySpace])]
    · rw [List.dropWhile_cons_of_neg (by simp [hc])]

theorem collapseSpacesGo_filter : ∀ (l : List Char),
    (collapseSpacesGo l).filter (fun c => !isPySpace c) =
      l.filter (fun c => !isPySpace c) := by
  have H : ∀ (n : ℕ) (l : List Char), l.length ≤ n →
      (collapseSpacesGo l).filter (fun c => !isPySpace c) =
        l.filter (fun c => !isPySpace c) := by
    intro n
    induction n with
    | zero =>
      intro l hl
      have hnil : l = [] := List.eq_nil_of_length_eq_zero (Nat.le_zero.mp hl)
      subst hnil
      rw [collapseSpacesGo]
    | succ n ih =>
      intro l hl
      cases l with
      | nil => rw [collapseSpacesGo]
      | cons c cs =>
        simp only [List.length_cons] at hl
        rw [collapseSpacesGo]
        by_cases hc : c = ' '
        · rw [if_pos hc]
          have hlen : (cs.dropWhile (· = ' ')).length ≤ n := by
            have := (List.dropWhile_sublist (l := cs) (· = ' ')).length_le
            omega
          rw [List.filter_cons_of_neg (by simp [hc, isPySpace]), ih _ hlen,
            filter_dropWhileSpace, hc,
            List.filter_cons_of_neg (by simp [isPySpace])]
        · rw [if_neg hc, List.filter_cons, List.filter_cons, ih _ (by omega)]
  intro l
  exact H l.length l le_rfl

theorem collapseSpaces_nonWs (s : String) :
    nonWsChars (collapseSpaces s) = nonWsChars s :=
  collapseSpacesGo_filter s.toList

theorem matchGs_none_of_head (c : Char) (cs : List Char) (hc : c ≠ '<') :
    matchGs (c :: cs) = none := by
  have hpre : ¬("<gs".toList.isPrefixOf (c :: cs) = true) := by
    intro h
    rw [show "<gs".toList = '<' :: 'g' :: 's' :: [] from rfl] at h
    simp only [List.isPrefixOf, Bool.and_eq_true] at h
    exact (Ne.symm hc) (eq_of_beq h.1)
  unfold matchGs
  rw [if_neg hpre]

theorem matchSvg_none_of_head (c : Char) (cs : List Char) (hc : c ≠ '<') :
    matchSvg (c :: cs) = none := by
  have hpre : ¬("<svg id=\"".toList.isPrefixOf (c :: cs) = true) := by
    intro h
    rw [show "<svg id=\"".toList =
      '<' :: 's' :: 'v' :: 'g' :: ' ' :: 'i' :: 'd' :: '=' :: '"' :: [] from rfl] at h
    simp only [List.isPrefixOf, Bool.and_eq_true] at h
    exact (Ne.symm hc) (eq_of_beq h.1)
  unfold matchSvg
  rw [if_neg hpre]

theorem parseCore_plain (ds : Style) (styles : List (String × Style))
    (svgMap : List (String × SvgProps)) :
    ∀ (l : List Char), '<' ∉ l →
      parseCore ds styles svgMap l =
        if l = [] then [] else [Segment.text (String.mk l) ds] := by
  intro l hlt
  cases l with
  | nil =>
    rw [parseCore, if_pos rfl]
  | cons c cs =>
    have hc : c ≠ '<' := by
      intro h
      exact hlt (by rw [← h]; exact List.mem_cons_self c cs)
    rw [parseCore]
    split
    · rename_i tag content rest hgs
      rw [matchGs_none_of_head c cs hc] at hgs
      exact absurd hgs (by simp)
    · rename_i hgs
      split
      · rename_i ident rest hsvg
        rw [matchSvg_none_of_head c cs hc] at hsvg
        exact absurd hsvg (by simp)
      · rename_i hsvg
        rw [if_neg hc]
        have hdw : (c :: cs).dropWhile (fun d => decide (d ≠ '<')) = [] := by
          rw [List.dropWhile_eq_nil_iff]
          intro x hx
          simp only [decide_eq_true_eq]
          intro hx'
          exact hlt (hx' ▸ hx)
        have htw : (c :: cs).takeWhile (fun d => decide (d ≠ '<')) = c :: cs := by
          have h2 := List.takeWhile_append_dropWhile
            (p := fun d => decide (d ≠ '<')) (l := c :: cs)
          rw [hdw, List.append_nil] at h2
          exact h2
        rw [hdw, htw, parseCore, if_neg (by simp)]

theorem parse_tagged_text_plain (text : String) (ds : Style)
    (styles : List (String × Style)) (svgMap : List (String × SvgProps))
    (hlt : '<' ∉ text.toList) :
    parse_tagged_text text ds styles svgMap =
      if text.toList = [] then [] else [Segment.text (collapseSpaces text) ds] := by
  simp only [parse_tagged_text]
  rw [parseCore_plain ds styles svgMap text.toList hlt]
  by_cases h : text.toList = []
  · rw [if_pos h, if_pos h]
    rfl
  · rw [if_neg h, if_neg h]
    rfl

/-- The non-whitespace characters a segment re-emits on reconstruction. -/
def segNonWs : Segment → List Char
  | .text t _ => nonWsChars t
  | .svg ident _ _ => nonWsChars ("<svg id=" ++ "\"" ++ ident ++ "\"/>")

/-- The non-whitespace characters of a segment list. -/
def segsNonWs (segs : List Segment) : List Char := (segs.map segNonWs).flatten

/-- A segment whose reverse style lookup is empty (so reconstruction emits no
tags around it); svg segments are always re-emitted verbatim. -/
def segPlain (globalStyles : List (String × Style)) : Segment → Bool
  | .text _ style => decide (styleToTag globalStyles style.sig = none)
  | .svg _ _ _ => true

theorem foldlAppend_data : ∀ (l : List String) (acc : String),
    (l.foldl (fun r s => r ++ s) acc).data = acc.data ++ (l.map String.data).flatten := by
  intro l
  induction l with
  | nil => intro acc; simp
  | cons s rest ih =>
    intro acc
    rw [List.foldl_cons, ih]
    simp

theorem join_data (l : List String) :
    (String.join l).data = (l.map String.data).flatten := by
  unfold String.join
  rw [foldlAppend_data]
  rfl

theorem reconstructSeg_nonWs (gs : List (String × Style)) (seg : Segment)
    (h : segPlain gs seg = true) :
    nonWsChars (reconstructSeg gs seg) = segNonWs seg := by
  cases seg with
  | text t style =>
    simp only [segPlain, decide_eq_true_eq] at h
    simp only [reconstructSeg, segNonWs]
    by_cases ht : t = ""
    · rw [if_pos ht, ht]
    · rw [if_neg ht, h]
  | svg ident props style => rfl

theorem reconstruct_nonws (gs : List (String × Style)) :
    ∀ (segs : List Segment), (∀ s ∈ segs, segPlain gs s = true) →
      nonWsChars (reconstruct_text_with_balises_preserved segs gs) = segsNonWs segs := by
  intro segs h
  unfold reconstruct_text_with_balises_preserved segsNonWs
  show (String.join (segs.map (reconstructSeg gs))).data.filter (fun c => !isPySpace c) = _
  rw [join_data, filterFlatten, List.map_map, List.map_map]
  apply congrArg
  apply List.map_congr_left
  intro s hs
  show nonWsChars (reconstructSeg gs s) = segNonWs s
  exact reconstructSeg_nonWs gs s (h s hs)

theorem join_nonWs_append (l1 l2 : List String) :
    nonWsChars (String.join (l1 ++ l2)) =
      nonWsChars (String.join l1) ++ nonWsChars (String.join l2) := by
  show (String.join (l1 ++ l2)).data.filter (fun c => !isPySpace c) =
    (String.join l1).data.filter (fun c => !isPySpace c) ++
      (String.join l2).data.filter (fun c => !isPySpace c)
  rw [join_data, join_data, join_data, List.map_append, List.flatten_append,
    List.filter_append]

theorem join_nonWs_singleton (s : String) :
    nonWsChars (String.join [s]) = nonWsChars s := by
  show (String.join [s]).data.filter (fun c => !isPySpace c) = _
  rw [join_data]
  simp [nonWsChars]

theorem joinSplit_nonWs (t : String) (n : ℕ) :
    nonWsChars (joinSpace ((pySplit t).take n)) ++
      nonWsChars (joinSpace ((pySplit t).drop n)) = nonWsChars t := by
  rw [nonWsChars_joinSpace, nonWsChars_joinSpace, ← List.flatten_append,
    ← List.map_append, List.take_append_drop, pySplit_nonWs]

theorem splitPair_nonWs (blockSegs rest : List Segment) (t : String)
    (style : Style) (n : ℕ) :
    segsNonWs (blockSegs ++ [Segment.text (joinSpace ((pySplit t).take n)) style]) ++
      segsNonWs (if stripTruthy (joinSpace ((pySplit t).drop n))
        then Segment.text (joinSpace ((pySplit t).drop n)) style :: rest else rest) =
      segsNonWs blockSegs ++ segsNonWs (Segment.text t style :: rest) := by
  by_cases hstr : stripTruthy (joinSpace ((pySplit t).drop n))
  · rw [if_pos hstr]
    simp only [segsNonWs, List.map_append, List.flatten_append, List.map_cons,
      List.flatten_cons, segNonWs, List.map_nil, List.flatten_nil, List.append_nil]
    rw [← joinSplit_nonWs t n]
    simp [List.append_assoc]
  · rw [if_neg hstr]
    have hz : nonWsChars (joinSpace ((pySplit t).drop n)) = [] :=
      stripTruthy_false_nonWs _ (by
        revert hstr
        cases stripTruthy (joinSpace ((pySplit t).drop n)) <;> simp)
    have hkey := joinSplit_nonWs t n
    rw [hz, List.append_nil] at hkey
    simp only [segsNonWs, List.map_append, List.flatten_append, List.map_cons,
      List.flatten_cons, segNonWs, List.map_nil, List.flatten_nil, List.append_nil]
    rw [hkey, List.append_assoc]

theorem fillBlock_conserves (cw : CharWidths) (block : Block) (fs cs : ℚ)
    (budget : ℕ) :
    ∀ (remaining blockSegs : List Segment),
      segsNonWs (fillBlock cw block fs cs budget blockSegs remaining).1 ++
        segsNonWs (fillBlock cw block fs cs budget blockSegs remaining).2 =
        segsNonWs blockSegs ++ segsNonWs remaining := by
  intro remaining
  induction remaining with
  | nil =>
    intro blockSegs
    rw [fillBlock]
  | cons seg rest ih =>
    intro blockSegs
    cases seg with
    | svg ident props st =>
      simp only [fillBlock]
      split
      · rw [ih (blockSegs ++ [Segment.svg ident props st])]
        simp [segsNonWs]
      · rfl
    | text t style =>
      simp only [fillBlock]
      split
      · rw [ih (blockSegs ++ [Segment.text t style])]
        simp [segsNonWs]
      · split
        · split
          · exact splitPair_nonWs blockSegs rest t style _
          · rfl
        · rfl

theorem fillBlock_preserves (cw : CharWidths) (block : Block) (fs cs : ℚ)
    (budget : ℕ) (P : Segment → Prop)
    (hP : ∀ t style t', P (.text t style) → P (.text t' style)) :
    ∀ (remaining blockSegs : List Segment),
      (∀ s ∈ blockSegs, P s) → (∀ s ∈ remaining, P s) →
      (∀ s ∈ (fillBlock cw block fs cs budget blockSegs remaining).1, P s) ∧
      (∀ s ∈ (fillBlock cw block fs cs budget blockSegs remaining).2, P s) := by
  intro remaining
  induction remaining with
  | nil =>
    intro blockSegs hb hr
    rw [fillBlock]
    exact ⟨hb, by intro s hs; exact absurd hs (List.not_mem_nil s)⟩
  | cons seg rest ih =>
    intro blockSegs hb hr
    cases seg with
    | svg ident props st =>
      simp only [fillBlock]
      split
      · refine ih (blockSegs ++ [Segment.svg ident props st]) ?_
          (fun s hs => hr s (List.mem_cons_of_mem _ hs))
        intro s hs
        rw [List.mem_append, List.mem_singleton] at hs
        rcases hs with hs | hs
        · exact hb s hs
        · exact hs ▸ hr _ (List.mem_cons_self _ _)
      · exact ⟨hb, hr⟩
    | text t style =>
      simp only [fillBlock]
      split
      · refine ih (blockSegs ++ [Segment.text t style]) ?_
          (fun s hs => hr s (List.mem_cons_of_mem _ hs))
        intro s hs
        rw [List.mem_append, List.mem_singleton] at hs
        rcases hs with hs | hs
        · exact hb s hs
        · exact hs ▸ hr _ (List.mem_cons_self _ _)
      · split
        · split
          · constructor
            · intro s hs
              rw [List.mem_append, List.mem_singleton] at hs
              rcases hs with hs | hs
              · exact hb s hs
              · exact hs ▸ hP t style _ (hr _ (List.mem_cons_self _ _))
            · intro s hs
              split at hs
              · rw [List.mem_cons] at hs
                rcases hs with hs | hs
                · exact hs ▸ hP t style _ (hr _ (List.mem_cons_self _ _))
                · exact hr s (List.mem_cons_of_mem _ hs)
              · exact hr s (List.mem_cons_of_mem _ hs)
          · exact ⟨hb, hr⟩
        · exact ⟨hb, hr⟩

theorem redistFold_nonWs (cw : CharWidths) (fs cs : ℚ)
    (gs : List (String × Style)) :
    ∀ (blocks : List Block) (st : List (String × String) × List Segment),
      (∀ s ∈ st.2, segPlain gs s = true) →
      (nonWsChars (String.join (((blocks.foldl
          (fun (st : List (String × String) × List Segment) block =>
            (st.1 ++ [(block.id, reconstruct_text_with_balises_preserved
                (fillBlock cw block fs cs (block.lignesOriginales.getD 0) [] st.2).1 gs)],
              (fillBlock cw block fs cs (block.lignesOriginales.getD 0) [] st.2).2))
          st).1).map (·.2))) ++
        segsNonWs ((blocks.foldl
          (fun (st : List (String × String) × List Segment) block =>
            (st.1 ++ [(block.id, reconstruct_text_with_balises_preserved
                (fillBlock cw block fs cs (block.lignesOriginales.getD 0) [] st.2).1 gs)],
              (fillBlock cw block fs cs (block.lignesOriginales.getD 0) [] st.2).2))
          st).2) =
        nonWsChars (String.join (st.1.map (·.2))) ++ segsNonWs st.2) ∧
      (∀ s ∈ (blocks.foldl
          (fun (st : List (String × String) × List Segment) block =>
            (st.1 ++ [(block.id, reconstruct_text_with_balises_preserved
                (fillBlock cw block fs cs (block.lignesOriginales.getD 0) [] st.2).1 gs)],
              (fillBlock cw block fs cs (block.lignesOriginales.getD 0) [] st.2).2))
          st).2, segPlain gs s = true) := by
  intro blocks
  induction blocks with
  | nil => intro st h; exact ⟨rfl, h⟩
  | cons block rest ih =>
    intro st h
    simp only [List.foldl_cons]
    have hfb := fillBlock_conserves cw block fs cs (block.lignesOriginales.getD 0)
      st.2 []
    have hfp := fillBlock_preserves cw block fs cs (block.lignesOriginales.getD 0)
      (fun s => segPlain gs s = true)
      (by intro t style t' hp; simpa [segPlain] using hp)
      st.2 [] (by intro s hs; exact absurd hs (List.not_mem_nil s)) h
    obtain ⟨hfp1, hfp2⟩ := hfp
    obtain ⟨ihEq, ihPlain⟩ := ih
      (st.1 ++ [(block.id, reconstruct_text_with_balises_preserved
          (fillBlock cw block fs cs (block.lignesOriginales.getD 0) [] st.2).1 gs)],
        (fillBlock cw block fs cs (block.lignesOriginales.getD 0) [] st.2).2) hfp2
    refine ⟨?_, ihPlain⟩
    rw [ihEq]
    rw [List.map_append, join_nonWs_append]
    simp only [List.map_cons, List.map_nil]
    rw [join_nonWs_singleton, reconstruct_nonws gs _ hfp1, List.append_assoc, hfb]
    simp [segsNonWs]

theorem dropWhileHead_false {α : Type} {p : α → Bool} :
    ∀ (l : List α) (d : α) (rest : List α), l.dropWhile p = d :: rest →
      p d = false := by
  intro l
  induction l with
  | nil => intro d rest h; simp [List.dropWhile] at h
  | cons c cs ih =>
    intro d rest h
    rw [List.dropWhile_cons] at h
    split at h
    · exact ih d rest h
    · rename_i hc
      injection h with h1 h2
      subst h1
      cases hpc : p c with
      | false => rfl
      | true => exact absurd hpc hc

theorem filter_not_dropWhile {α : Type} {p : α → Bool} : ∀ (l : List α),
    (l.dropWhile p).filter (fun c => !p c) = l.filter (fun c => !p c) := by
  intro l
  induction l with
  | nil => rfl
  | cons c cs ih =>
    by_cases hc : p c = true
    · rw [List.dropWhile_cons_of_pos hc, ih,
        List.filter_cons_of_neg (by simp [hc])]
    · rw [List.dropWhile_cons_of_neg hc]

theorem pyStrip_nonWs (s : String) : nonWsChars (pyStrip s) = nonWsChars s := by
  show (((s.toList.dropWhile isPySpace).reverse.dropWhile
      isPySpace).reverse).filter (fun c => !isPySpace c) =
    s.toList.filter (fun c => !isPySpace c)
  rw [List.filter_reverse, filter_not_dropWhile, List.filter_reverse,
    List.reverse_reverse, filter_not_dropWhile]

theorem pyStrip_subset (s : String) (x : Char) (h : x ∈ (pyStrip s).toList) :
    x ∈ s.toList := by
  have h0 : x ∈ ((s.toList.dropWhile isPySpace).reverse.dropWhile
      isPySpace).reverse := h
  rw [List.mem_reverse] at h0
  have h1 : x ∈ (s.toList.dropWhile isPySpace).reverse :=
    (List.dropWhile_sublist _).subset h0
  rw [List.mem_reverse] at h1
  exact (List.dropWhile_sublist _).subset h1

theorem subMarkerGo_filter (m : Char) (hm : isPySpace m = false) :
    ∀ (b : Bool) (l : List Char),
      (subMarkerGo m b l).filter (fun c => !isPySpace c) =
        l.filter (fun c => !isPySpace c) := by
  have H : ∀ (n : ℕ) (b : Bool) (l : List Char), l.length ≤ n →
      (subMarkerGo m b l).filter (fun c => !isPySpace c) =
        l.filter (fun c => !isPySpace c) := by
    intro n
    induction n with
    | zero =>
      intro b l hl
      have hnil : l = [] := List.eq_nil_of_length_eq_zero (Nat.le_zero.mp hl)
      subst hnil
      cases b <;> rw [subMarkerGo]
    | succ n ih =>
      intro b l hl
      cases l with
      | nil => cases b <;> rw [subMarkerGo]
      | cons c cs =>
        simp only [List.length_cons] at hl
        cases b with
        | false =>
          rw [subMarkerGo, List.filter_cons, List.filter_cons,
            ih _ cs (by omega)]
        | true =>
          rw [subMarkerGo]
          split
          · rfl
          · rename_i d rest hdrop
            have hdlen : (d :: rest).length ≤ (c :: cs).length := by
              rw [← hdrop]
              exact (List.dropWhile_sublist _).length_le
            simp only [List.length_cons] at hdlen
            by_cases hd : d = m
            · subst hd
              rw [if_pos rfl]
              have hlen : (rest.dropWhile isPySpace).length ≤ n := by
                have := (List.dropWhile_sublist (l := rest) isPySpace).length_le
                omega
              rw [List.filter_cons_of_neg (by simp [isPySpace]),
                List.filter_cons_of_pos (by simp [hm]),
                List.filter_cons_of_neg (by simp [isPySpace]),
                ih _ _ hlen,
                ← filter_not_dropWhile (c :: cs), hdrop,
                List.filter_cons_of_pos (by simp [hm]),
                filter_not_dropWhile rest]
            · rw [if_neg hd]
              have hdns : isPySpace d = false := dropWhileHead_false _ d rest hdrop
              rw [List.filter_append]
              have htw : ((c :: cs).takeWhile isPySpace).filter
                  (fun c => !isPySpace c) = [] := by
                rw [List.filter_eq_nil_iff]
                intro a ha
                have := List.mem_takeWhile_imp (p := isPySpace) ha
                simp [this]
              rw [htw, List.nil_append,
                List.filter_cons_of_pos (by simp [hdns]),
                ih true rest (by omega),
                ← filter_not_dropWhile (c :: cs), hdrop,
                List.filter_cons_of_pos (by simp [hdns])]
  intro b l
  exact H l.length b l le_rfl

theorem subMarkerGo_mem (m : Char) :
    ∀ (b : Bool) (l : List Char) (x : Char), x ∈ subMarkerGo m b l →
      x ∈ l ∨ x = '\n' ∨ x = m ∨ x = ' ' := by
  have H : ∀ (n : ℕ) (b : Bool) (l : List Char), l.length ≤ n →
      ∀ x ∈ subMarkerGo m b l, x ∈ l ∨ x = '\n' ∨ x = m ∨ x = ' ' := by
    intro n
    induction n with
    | zero =>
      intro b l hl x hx
      have hnil : l = [] := List.eq_nil_of_length_eq_zero (Nat.le_zero.mp hl)
      subst hnil
      cases b <;> rw [subMarkerGo] at hx <;>
        exact absurd hx (List.not_mem_nil x)
    | succ n ih =>
      intro b l hl x hx
      cases l with
      | nil =>
        cases b <;> rw [subMarkerGo] at hx <;>
          exact absurd hx (List.not_mem_nil x)
      | cons c cs =>
        simp only [List.length_cons] at hl
        cases b with
        | false =>
          rw [subMarkerGo, List.mem_cons] at hx
          rcases hx with hx | hx
          · exact Or.inl (hx ▸ List.mem_cons_self _ _)
          · rcases ih _ cs (by omega) x hx with h | h
            · exact Or.inl (List.mem_cons_of_mem _ h)
            · exact Or.inr h
        | true =>
          rw [subMarkerGo] at hx
          split at hx
          · exact Or.inl hx
          · rename_i d rest hdrop
            have hdlen : (d :: rest).length ≤ (c :: cs).length := by
              rw [← hdrop]
              exact (List.dropWhile_sublist _).length_le
            simp only [List.length_cons] at hdlen
            have hsub : ∀ y, y ∈ d :: rest → y ∈ c :: cs := by
              intro y hy
              rw [← hdrop] at hy
              exact (List.dropWhile_sublist _).subset hy
            split at hx
            · rename_i hd
              subst hd
              rw [List.mem_cons, List.mem_cons, List.mem_cons] at hx
              rcases hx with hx | hx | hx | hx
              · exact Or.inr (Or.inl hx)
              · exact Or.inr (Or.inr (Or.inl hx))
              · exact Or.inr (Or.inr (Or.inr hx))
              · have hlen : (rest.dropWhile isPySpace).length ≤ n := by
                  have := (List.dropWhile_sublist (l := rest) isPySpace).length_le
                  omega
                rcases ih _ _ hlen x hx with h | h
                · refine Or.inl (hsub x (List.mem_cons_of_mem _
                    ((List.dropWhile_sublist _).subset h)))
                · exact Or.inr h
            · rw [List.mem_append, List.mem_cons] at hx
              rcases hx with hx | hx | hx
              · exact Or.inl ((List.takeWhile_sublist _).subset hx)
              · exact Or.inl (hsub x (hx ▸ List.mem_cons_self _ _))
              · rcases ih true rest (by omega) x hx with h | h
                · exact Or.inl (hsub x (List.mem_cons_of_mem _ h))
                · exact Or.inr h
  intro b l
  exact H l.length b l le_rfl

theorem format_list_items_nonWs (text : String) (blockType : String) :
    nonWsChars (format_list_items_for_reflow text blockType) =
      nonWsChars text := by
  unfold format_list_items_for_reflow
  split
  · rfl
  · have H : ∀ (ms : List Char) (s : String),
        (∀ m ∈ ms, isPySpace m = false) →
        nonWsChars (ms.foldl
          (fun processed m => String.mk (subMarkerGo m false processed.toList))
          s) = nonWsChars s := by
      intro ms
      induction ms with
      | nil => intro s _; rfl
      | cons m rest ih =>
        intro s hms
        rw [List.foldl_cons,
          ih _ (fun x hx => hms x (List.mem_cons_of_mem _ hx))]
        show (subMarkerGo m false s.toList).filter (fun c => !isPySpace c) =
          s.toList.filter (fun c => !isPySpace c)
        rw [subMarkerGo_filter m (hms m (List.mem_cons_self _ _)) false s.toList]
    rw [H bulletMarkers (pyStrip text) (by with_unfolding_all decide)]
    exact pyStrip_nonWs text

theorem format_list_items_no_lt (text : String) (blockType : String)
    (hlt : '<' ∉ text.toList) :
    '<' ∉ (format_list_items_for_reflow text blockType).toList := by
  unfold format_list_items_for_reflow
  split
  · exact hlt
  · have H : ∀ (ms : List Char) (s : String),
        (∀ m ∈ ms, m ≠ '<') → '<' ∉ s.toList →
        '<' ∉ (ms.foldl
          (fun processed m => String.mk (subMarkerGo m false processed.toList))
          s).toList := by
      intro ms
      induction ms with
      | nil => intro s _ h; exact h
      | cons m rest ih =>
        intro s hms hs
        rw [List.foldl_cons]
        refine ih _ (fun x hx => hms x (List.mem_cons_of_mem _ hx)) ?_
        intro hmem
        rcases subMarkerGo_mem m false s.toList '<' hmem with h | h | h | h
        · exact hs h
        · exact absurd h (by decide)
        · exact absurd h.symm (hms m (List.mem_cons_self _ _))
        · exact absurd h (by decide)
    refine H bulletMarkers (pyStrip text) (by with_unfolding_all decide) ?_
    intro h
    exact hlt (pyStrip_subset text '<' h)

/-- **C4 (amended)** — for a merged text without tag characters, a first
block whose default style resolves and whose (font, size, color) triple has
no reverse entry in the global style table, a successful fill-strategy
redistribution conserves the non-whitespace characters: the concatenation
of the per-block shares in block order equals the merged input modulo
whitespace normalization.  This covers list-item groups too: the
list-formatting pass only strips and rewrites whitespace around bullet
markers.  (With a stray tag character the parser drops it — see the
counterexample — so conservation of all non-whitespace characters holds
only for tag-free inputs.) -/
theorem C4_redistribution_conserves_nonws
    (cw : CharWidths) (mergedText : String) (firstBlock : Block)
    (restBlocks : List Block) (svgMap : List (String × SvgProps))
    (globalStyles : List (String × Style)) (fontScale charSpace : ℚ)
    (result : List (String × String)) (ds : Style)
    (hlt : '<' ∉ mergedText.toList)
    (href : firstBlock.defaultStyleRef = some (.direct ds) ∨
      (∃ ident, firstBlock.defaultStyleRef = some (.named ident) ∧
        lookupAssoc globalStyles ident = some ds) ∨
      (firstBlock.defaultStyleRef = none ∧ firstBlock.defaultStyle = some ds))
    (htag : styleToTag globalStyles ds.sig = none)
    (hres : redistribute_merged_text_fillstrategy cw mergedText
      (firstBlock :: restBlocks) svgMap globalStyles fontScale charSpace =
        some result) :
    nonWsChars (String.join (result.map (·.2))) = nonWsChars mergedText := by
  have hcore : ∀ (segments : List Segment),
      (∀ s ∈ segments, segPlain globalStyles s = true) →
      segsNonWs segments = nonWsChars mergedText →
      (if (((firstBlock :: restBlocks).foldl
          (fun (st : List (String × String) × List Segment) block =>
            (st.1 ++ [(block.id, reconstruct_text_with_balises_preserved
                (fillBlock cw block fontScale charSpace
                  (block.lignesOriginales.getD 0) [] st.2).1 globalStyles)],
              (fillBlock cw block fontScale charSpace
                (block.lignesOriginales.getD 0) [] st.2).2))
          ([], segments)).2).isEmpty
        then some (((firstBlock :: restBlocks).foldl
          (fun (st : List (String × String) × List Segment) block =>
            (st.1 ++ [(block.id, reconstruct_text_with_balises_preserved
                (fillBlock cw block fontScale charSpace
                  (block.lignesOriginales.getD 0) [] st.2).1 globalStyles)],
              (fillBlock cw block fontScale charSpace
                (block.lignesOriginales.getD 0) [] st.2).2))
          ([], segments)).1)
        else none) = some result →
      nonWsChars (String.join (result.map (·.2))) = nonWsChars mergedText := by
    intro segments hplain hsegs hif
    obtain ⟨hEq, -⟩ := redistFold_nonWs cw fontScale charSpace globalStyles
      (firstBlock :: restBlocks) ([], segments) hplain
    split at hif
    · rename_i hempty
      rw [Option.some.injEq] at hif
      rw [List.isEmpty_iff] at hempty
      rw [hif, hempty, hsegs] at hEq
      simpa [segsNonWs, nonWsChars, String.join, String.toList_empty] using hEq
    · exact absurd hif (by simp)
  have hpn : nonWsChars
      (format_list_items_for_reflow mergedText firstBlock.blockType) =
      nonWsChars mergedText :=
    format_list_items_nonWs mergedText firstBlock.blockType
  have hplt : '<' ∉
      (format_list_items_for_reflow mergedText firstBlock.blockType).toList :=
    format_list_items_no_lt mergedText firstBlock.blockType hlt
  simp only [redistribute_merged_text_fillstrategy] at hres
  have happly : ∀ (segments : List Segment),
      segments = parse_tagged_text
        (format_list_items_for_reflow mergedText firstBlock.blockType)
        ds globalStyles svgMap →
      (∀ s ∈ segments, segPlain globalStyles s = true) ∧
        segsNonWs segments = nonWsChars mergedText := by
    intro segments hsegeq
    rw [parse_tagged_text_plain _ ds globalStyles svgMap hplt] at hsegeq
    by_cases hmt :
        (format_list_items_for_reflow mergedText firstBlock.blockType).toList = []
    · rw [if_pos hmt] at hsegeq
      subst hsegeq
      refine ⟨by intro s hs; exact absurd hs (List.not_mem_nil s), ?_⟩
      rw [← hpn]
      show ([] : List Char) =
        (format_list_items_for_reflow mergedText
          firstBlock.blockType).toList.filter (fun c => !isPySpace c)
      rw [hmt]
      rfl
    · rw [if_neg hmt] at hsegeq
      subst hsegeq
      refine ⟨?_, ?_⟩
      · intro s hs
        rw [List.mem_singleton] at hs
        subst hs
        simp [segPlain, htag]
      · rw [← hpn]
        simp [segsNonWs, segNonWs, collapseSpaces_nonWs]
  rcases href with hr | ⟨ident, hr, hlk⟩ | ⟨hr, hds⟩
  · rw [hr] at hres
    obtain ⟨hp, hs⟩ := happly _ rfl
    exact hcore _ hp hs hres
  · rw [hr] at hres
    simp only [hlk] at hres
    obtain ⟨hp, hs⟩ := happly _ rfl
    exact hcore _ hp hs hres
  · rw [hr, hds] at hres
    simp only [Option.map_some] at hres
    obtain ⟨hp, hs⟩ := happly _ rfl
    exact hcore _ hp hs hres

/-- The block of the C4 counterexample. -/
def c4blk : Block :=
  { id := "k1", maxAllowableWidth := 100, lignesOriginales := some 5, defaultStyle := some ⟨"F", 10, 0⟩ }

/-- **C4 (counterexample)** — on the merged text `a < b` the redistribution
succeeds but the stray `<` is dropped by the tag scanner: the concatenated
shares are `a  b`, so a non-whitespace character is lost and the claimed
reproduction modulo whitespace fails. -/
theorem C4_redistribution_counterexample :
    ('<' ∈ "a < b".toList) ∧
    redistribute_merged_text_fillstrategy unitCw "a < b" [c4blk] [] [] 1 0 =
      some [("k1", "a  b")] ∧
    nonWsChars "a < b" = ['a', '<', 'b'] ∧
    nonWsChars (String.join ([("k1", "a  b")].map (·.2))) = ['a', 'b'] ∧
    (['a', '<', 'b'] : List Char) ≠ ['a', 'b'] := by
  refine ⟨?_, ?_, ?_, ?_, ?_⟩ <;> with_unfolding_all decide

/-- The block of the C4 witness: a *list-item* block, exercising the
list-formatting pass of the redistribution. -/
def c4wBlk : Block :=
  { id := "w1", maxAllowableWidth := 100, lignesOriginales := some 3, defaultStyle := some ⟨"F", 10, 0⟩, blockType := "list_item" }

/-- **C4 (witness)** — conservation applied to the tag-free merged text
`hi there` over a single list-item block with an unmapped direct default
style. -/
theorem C4_redistribution_conserves_nonws_witness :
    ('<' ∉ "hi there".toList) ∧
    c4wBlk.blockType = "list_item" ∧
    c4wBlk.defaultStyleRef = none ∧ c4wBlk.defaultStyle = some ⟨"F", 10, 0⟩ ∧
    styleToTag [] (Style.sig ⟨"F", 10, 0⟩) = none ∧
    redistribute_merged_text_fillstrategy unitCw "hi there" [c4wBlk] [] [] 1 0 =
      some [("w1", "hi there")] ∧
    nonWsChars (String.join ([("w1", "hi there")].map (·.2))) =
      nonWsChars "hi there" := by
  have h1 : '<' ∉ "hi there".toList := by with_unfolding_all decide
  have h2 : c4wBlk.blockType = "list_item" := rfl
  have h3 : c4wBlk.defaultStyleRef = none := rfl
  have h4 : c4wBlk.defaultStyle = some ⟨"F", 10, 0⟩ := rfl
  have h5 : styleToTag [] (Style.sig ⟨"F", 10, 0⟩) = none := rfl
  have h6 : redistribute_merged_text_fillstrategy unitCw "hi there" [c4wBlk] [] [] 1 0 =
      some [("w1", "hi there")] := by with_unfolding_all decide
  exact ⟨h1, h2, h3, h4, h5, h6,
    C4_redistribution_conserves_nonws unitCw "hi there" c4wBlk [] [] [] 1 0
      [("w1", "hi there")] ⟨"F", 10, 0⟩ h1 (Or.inr (Or.inr ⟨h3, h4⟩)) h5 h6⟩

/-! ## C8 — span ownership -/

/-- Pairwise disjointness of the span-id sets owned by the blocks of a page. -/
def blocksSpanIdsDisjoint (blocks : List EnrichedBlock) : Prop :=
  List.Pairwise (fun b1 b2 => ∀ i ∈ b1.spanIds, i ∉ b2.spanIds) blocks

theorem candidateFold_origin (tolerance : ℚ) (blockContent : String)
    (blockBbox : ℚ × ℚ × ℚ × ℚ) :
    ∀ (l acc : List Span),
      ∀ x ∈ l.foldl (candidateFoldStep tolerance blockContent blockBbox) acc,
        x ∈ acc ∨ ∃ s ∈ l, s.matchedToBlock = none ∧ x.id = s.id ∧
          x.matchedToBlock = none := by
  intro l
  induction l with
  | nil => intro acc x hx; exact Or.inl hx
  | cons s0 rest ih =>
    intro acc x hx
    rw [List.foldl_cons] at hx
    rcases ih _ x hx with hx' | ⟨s, hs, h1, h2, h3⟩
    · unfold candidateFoldStep at hx'
      split at hx'
      · exact Or.inl hx'
      · rename_i hmat
        have hnone : s0.matchedToBlock = none := not_not.mp hmat
        split at hx'
        · split at hx'
          · rw [List.mem_append, List.mem_singleton] at hx'
            rcases hx' with hx' | hx'
            · exact Or.inl hx'
            · subst hx'
              exact Or.inr ⟨s0, List.mem_cons_self _ _, hnone, rfl, hnone⟩
          · exact Or.inl hx'
        · exact Or.inl hx'
    · exact Or.inr ⟨s, List.mem_cons_of_mem _ hs, h1, h2, h3⟩

theorem find_matching_origin (tolerance : ℚ) (block : MineruBlock)
    (spans : List Span) (sp : Span)
    (h : sp ∈ find_matching_spans_for_block tolerance block spans) :
    (∃ s ∈ spans, s.matchedToBlock = none ∧ sp.id = s.id) ∧
      sp.matchedToBlock = none := by
  simp only [find_matching_spans_for_block] at h
  split at h
  · exact absurd h (List.not_mem_nil sp)
  · rcases candidateFold_origin tolerance (pyLower block.content) block.bbox spans []
      sp (orderSpans_subset _ _ h) with habs | ⟨s, hs, h1, h2, h3⟩
    · exact absurd habs (List.not_mem_nil sp)
    · exact ⟨⟨s, hs, h1, h2⟩, h3⟩

theorem markSpans_ids (idx : ℕ) (sel pool : List Span) :
    (markSpans idx sel pool).map (·.id) = pool.map (·.id) := by
  unfold markSpans
  rw [List.map_map]
  apply List.map_congr_left
  intro s _
  simp only [Function.comp]
  cases hf : sel.find? (fun t => t.id = s.id) with
  | none => rfl
  | some t =>
    have ht := List.find?_some hf
    simp only [decide_eq_true_eq] at ht
    simp [ht]

theorem update_empty_matchingSpans (b : EnrichedBlock) :
    (update_empty_block_style_from_first_span b).matchingSpans = b.matchingSpans := by
  unfold update_empty_block_style_from_first_span
  split
  · rfl
  · split <;> rfl

theorem enriched_spanIds (pageNum blockIdx : ℕ) (mb : MineruBlock)
    (tolerance : ℚ) (pool : List Span) :
    (update_empty_block_style_from_first_span
      { id := "page" ++ toString (pageNum + 1) ++ "_group0_bloc" ++ toString blockIdx
        blockType := mb.type
        defaultStyle := default_style_from_spans
          (find_matching_spans_for_block tolerance mb pool)
        matchingSpans := (find_matching_spans_for_block tolerance mb pool).map
          (fun s => { s with matchedToBlock := some (.inl blockIdx) }) }).spanIds =
    (find_matching_spans_for_block tolerance mb pool).map (·.id) := by
  unfold EnrichedBlock.spanIds
  rw [update_empty_matchingSpans, List.map_map]
  apply List.map_congr_left
  intro t _
  rfl

theorem enrichFold_invariant (tolerance : ℚ) (pageNum : ℕ) :
    ∀ (mblocks : List MineruBlock) (eb : List EnrichedBlock) (pool : List Span)
      (idx : ℕ),
      (pool.map (·.id)).Nodup →
      (∀ s ∈ pool, s.matchedToBlock = none → ∀ b ∈ eb, s.id ∉ b.spanIds) →
      blocksSpanIdsDisjoint eb →
      (((mblocks.foldl
          (fun (st : List EnrichedBlock × List Span × ℕ) block =>
          let (blocks, spans, blockIdx) := st
          let matchingSpans := find_matching_spans_for_block tolerance block spans
          let marked := matchingSpans.map
            (fun s => { s with matchedToBlock := some (.inl blockIdx) })
          let enriched : EnrichedBlock :=
            update_empty_block_style_from_first_span
              { id := "page" ++ toString (pageNum + 1) ++ "_group0_bloc" ++ toString blockIdx
                blockType := block.type
                defaultStyle := default_style_from_spans matchingSpans
                matchingSpans := marked }
          (blocks ++ [enriched], markSpans blockIdx matchingSpans spans, blockIdx + 1))
          (eb, pool, idx)).2.1.map (·.id)).Nodup ∧
       (∀ s ∈ (mblocks.foldl
          (fun (st : List EnrichedBlock × List Span × ℕ) block =>
          let (blocks, spans, blockIdx) := st
          let matchingSpans := find_matching_spans_for_block tolerance block spans
          let marked := matchingSpans.map
            (fun s => { s with matchedToBlock := some (.inl blockIdx) })
          let enriched : EnrichedBlock :=
            update_empty_block_style_from_first_span
              { id := "page" ++ toString (pageNum + 1) ++ "_group0_bloc" ++ toString blockIdx
                blockType := block.type
                defaultStyle := default_style_from_spans matchingSpans
                matchingSpans := marked }
          (blocks ++ [enriched], markSpans blockIdx matchingSpans spans, blockIdx + 1))
          (eb, pool, idx)).2.1, s.matchedToBlock = none →
          ∀ b ∈ (mblocks.foldl
          (fun (st : List EnrichedBlock × List Span × ℕ) block =>
          let (blocks, spans, blockIdx) := st
          let matchingSpans := find_matching_spans_for_block tolerance block spans
          let marked := matchingSpans.map
            (fun s => { s with matchedToBlock := some (.inl blockIdx) })
          let enriched : EnrichedBlock :=
            update_empty_block_style_from_first_span
              { id := "page" ++ toString (pageNum + 1) ++ "_group0_bloc" ++ toString blockIdx
                blockType := block.type
                defaultStyle := default_style_from_spans matchingSpans
                matchingSpans := marked }
          (blocks ++ [enriched], markSpans blockIdx matchingSpans spans, blockIdx + 1))
          (eb, pool, idx)).1, s.id ∉ b.spanIds) ∧
       blocksSpanIdsDisjoint (mblocks.foldl
          (fun (st : List EnrichedBlock × List Span × ℕ) block =>
          let (blocks, spans, blockIdx) := st
          let matchingSpans := find_matching_spans_for_block tolerance block spans
          let marked := matchingSpans.map
            (fun s => { s with matchedToBlock := some (.inl blockIdx) })
          let enriched : EnrichedBlock :=
            update_empty_block_style_from_first_span
              { id := "page" ++ toString (pageNum + 1) ++ "_group0_bloc" ++ toString blockIdx
                blockType := block.type
                defaultStyle := default_style_from_spans matchingSpans
                matchingSpans := marked }
          (blocks ++ [enriched], markSpans blockIdx matchingSpans spans, blockIdx + 1))
          (eb, pool, idx)).1) := by
  intro mblocks
  induction mblocks with
  | nil => intro eb pool idx h1 h2 h3; exact ⟨h1, h2, h3⟩
  | cons mb rest ih =>
    intro eb pool idx h1 h2 h3
    simp only [List.foldl_cons]
    refine ih _ _ _ ?_ ?_ ?_
    · rw [markSpans_ids]
      exact h1
    · intro s' hs' hnone b hb
      unfold markSpans at hs'
      rw [List.mem_map] at hs'
      obtain ⟨s, hs, hmap⟩ := hs'
      cases hf : (find_matching_spans_for_block tolerance mb pool).find?
          (fun t => t.id = s.id) with
      | some t =>
        rw [hf] at hmap
        rw [← hmap] at hnone
        simp at hnone
      | none =>
        rw [hf] at hmap
        subst hmap
        rw [List.mem_append, List.mem_singleton] at hb
        rcases hb with hb | hb
        · exact h2 s hs hnone b hb
        · subst hb
          rw [enriched_spanIds pageNum idx mb tolerance pool]
          intro hid
          rw [List.mem_map] at hid
          obtain ⟨t, ht, htid⟩ := hid
          rw [List.find?_eq_none] at hf
          exact hf t ht (by simp [htid])
    · unfold blocksSpanIdsDisjoint at h3 ⊢
      rw [List.pairwise_append]
      refine ⟨h3, List.pairwise_singleton _ _, ?_⟩
      intro b hb b' hb'
      rw [List.mem_singleton] at hb'
      subst hb'
      intro i hib hiE
      rw [enriched_spanIds pageNum idx mb tolerance pool, List.mem_map] at hiE
      obtain ⟨sp, hsp, hspid⟩ := hiE
      obtain ⟨⟨s, hs, hsnone, hid⟩, -⟩ :=
        find_matching_origin tolerance mb pool sp hsp
      have hsi : s.id = i := by rw [← hid, hspid]
      exact h2 s hs hsnone b hb (hsi ▸ hib)

/-- **C8 (amended)** — the disjointness the automatic matcher *does*
guarantee, and what manual linking actually writes: when the incoming span
pool has pairwise-distinct ids, the page produced by `_enrich_page_blocks`
(matched blocks followed by isolated-span blocks) has pairwise disjoint
span-id sets; and `link_spans_to_block` replaces the target block's span
list with copies marked `matched_to_block = blockId` (the originals are not
detached, which is what breaks the claimed global invariant — see the
counterexample). -/
theorem C8_span_disjointness (tolerance : ℚ) (pageNum : ℕ)
    (standardizedBlocks : List MineruBlock) (spans0 : List Span)
    (page : List EnrichedBlock) (blockId : String) (spans : List Span)
    (hnodup : (spans0.map (·.id)).Nodup) :
    blocksSpanIdsDisjoint
      (enrich_page_blocks tolerance pageNum standardizedBlocks spans0) ∧
    (∀ b ∈ link_spans_to_block page blockId spans, b.id = blockId →
      b.matchingSpans =
        spans.map (fun s => { s with matchedToBlock := some (.inr blockId) })) := by
  constructor
  · simp only [enrich_page_blocks]
    obtain ⟨hN, hF, hD⟩ := enrichFold_invariant tolerance pageNum
      standardizedBlocks [] spans0 0 hnodup
      (by intro s _ _ b hb; exact absurd hb (List.not_mem_nil b))
      List.Pairwise.nil
    unfold blocksSpanIdsDisjoint at hD ⊢
    rw [List.pairwise_append]
    refine ⟨hD, ?_, ?_⟩
    · rw [List.pairwise_map]
      have hnf : (((standardizedBlocks.foldl
          (fun (st : List EnrichedBlock × List Span × ℕ) block =>
          let (blocks, spans, blockIdx) := st
          let matchingSpans := find_matching_spans_for_block tolerance block spans
          let marked := matchingSpans.map
            (fun s => { s with matchedToBlock := some (.inl blockIdx) })
          let enriched : EnrichedBlock :=
            update_empty_block_style_from_first_span
              { id := "page" ++ toString (pageNum + 1) ++ "_group0_bloc" ++ toString blockIdx
                blockType := block.type
                defaultStyle := default_style_from_spans matchingSpans
                matchingSpans := marked }
          (blocks ++ [enriched], markSpans blockIdx matchingSpans spans, blockIdx + 1))
          ([], spans0, 0)).2.1.filter
            (fun s => s.matchedToBlock = none)).map (·.id)).Nodup :=
        hN.sublist ((List.filter_sublist _).map _)
      have hpw0 : List.Pairwise (fun a b : ℕ => ¬(a = b))
          (((standardizedBlocks.foldl
          (fun (st : List EnrichedBlock × List Span × ℕ) block =>
          let (blocks, spans, blockIdx) := st
          let matchingSpans := find_matching_spans_for_block tolerance block spans
          let marked := matchingSpans.map
            (fun s => { s with matchedToBlock := some (.inl blockIdx) })
          let enriched : EnrichedBlock :=
            update_empty_block_style_from_first_span
              { id := "page" ++ toString (pageNum + 1) ++ "_group0_bloc" ++ toString blockIdx
                blockType := block.type
                defaultStyle := default_style_from_spans matchingSpans
                matchingSpans := marked }
          (blocks ++ [enriched], markSpans blockIdx matchingSpans spans, blockIdx + 1))
          ([], spans0, 0)).2.1.filter
            (fun s => s.matchedToBlock = none)).map (·.id)) := hnf
      rw [List.pairwise_map] at hpw0
      refine hpw0.imp ?_
      intro a b hab i hia hib
      simp only [create_isolated_span_block, EnrichedBlock.spanIds, List.map_cons,
        List.map_nil, List.mem_singleton] at hia hib
      exact hab (by rw [← hia, ← hib])
    · intro b hb b' hb' i hib hib'
      rw [List.mem_map] at hb'
      obtain ⟨s, hs, hcreate⟩ := hb'
      rw [List.mem_filter] at hs
      obtain ⟨hspool, hsnone⟩ := hs
      simp only [decide_eq_true_eq] at hsnone
      subst hcreate
      simp only [create_isolated_span_block, EnrichedBlock.spanIds, List.map_cons,
        List.map_nil, List.mem_singleton] at hib'
      exact hF s hspool hsnone b hb (hib' ▸ hib)
  · intro b hb hid
    unfold link_spans_to_block at hb
    rw [List.mem_map] at hb
    obtain ⟨b0, hb0, hmap⟩ := hb
    by_cases h : b0.id = blockId
    · rw [if_pos h] at hmap
      subst hmap
      rfl
    · rw [if_neg h] at hmap
      subst hmap
      exact absurd hid h

/-- The shared span of the C8 counterexample. -/
def c8span : Span := { id := 7, text := "x", fontName := "F", fontSize := 10, colorRgb := 0 }

/-- First block of the C8 counterexample page. -/
def c8blockA : EnrichedBlock :=
  { id := "A", blockType := "p", defaultStyle := ⟨"F", 10, 0⟩, matchingSpans := [] }

/-- Second block of the C8 counterexample page. -/
def c8blockB : EnrichedBlock :=
  { id := "B", blockType := "p", defaultStyle := ⟨"F", 10, 0⟩, matchingSpans := [] }

/-- **C8 (counterexample)** — manually linking the same span to two distinct
blocks leaves both blocks owning span id 7: `link_spans_to_block` copies and
marks the given spans but never detaches them from their previous owner, so
the claimed pairwise disjointness after every span-assignment operation
fails. -/
theorem C8_ownership_counterexample :
    ((link_spans_to_block (link_spans_to_block [c8blockA, c8blockB] "A" [c8span])
        "B" [c8span]).map (fun b => (b.id, b.spanIds)) =
      [("A", [7]), ("B", [7])]) ∧
    ¬blocksSpanIdsDisjoint
      (link_spans_to_block (link_spans_to_block [c8blockA, c8blockB] "A" [c8span])
        "B" [c8span]) := by
  refine ⟨?_, ?_⟩
  · with_unfolding_all decide
  · unfold blocksSpanIdsDisjoint
    with_unfolding_all decide

/-- First span of the C8 witness pool. -/
def c8wSpan1 : Span :=
  { id := 1, text := "hello", fontName := "F", fontSize := 10, colorRgb := 0, bboxNormalized := (0, 0, 1, 1), bboxPixels := (0, 0, 5, 5) }

/-- Second span of the C8 witness pool. -/
def c8wSpan2 : Span :=
  { id := 2, text := "world", fontName := "F", fontSize := 10, colorRgb := 0, bboxNormalized := (0, 0, 1, 1), bboxPixels := (0, 6, 5, 9) }

/-- Blocks of the C8 witness page. -/
def c8wBlocks : List MineruBlock :=
  [⟨"text", "hello", (0, 0, 1, 1)⟩, ⟨"text", "world", (0, 0, 1, 1)⟩]

/-- **C8 (witness)** — the amended disjointness on a concrete two-block,
two-span page. -/
theorem C8_span_disjointness_witness :
    (([c8wSpan1, c8wSpan2].map (·.id)).Nodup) ∧
    blocksSpanIdsDisjoint
      (enrich_page_blocks (1/50) 0 c8wBlocks [c8wSpan1, c8wSpan2]) := by
  have h1 : (([c8wSpan1, c8wSpan2]).map (·.id)).Nodup := by
    with_unfolding_all decide
  exact ⟨h1, (C8_span_disjointness (1/50) 0 c8wBlocks [c8wSpan1, c8wSpan2]
    [] "x" [] h1).1⟩

end PdfTrans
